import Mathlib

/-!
A verification development for the slc_oxide replay library (the v2 "SILL"
format and the v3 "SLC3RPLY" format).

Modelling conventions:
* a byte is a natural number below 256; a byte stream is a `List Nat`;
* 64-bit machine arithmetic is modelled on `Nat` with explicit `% 2 ^ 64`
  at the operations where Rust's `u64` wraps (shifts and additions);
* `f64` values occur only as opaque 8-byte bit patterns (`to_le_bytes` /
  `from_le_bytes` are mutually inverse on bit patterns), modelled by the
  natural number their little-endian bytes denote;
* fallible readers return `Except`; loops whose progress is data-driven
  take an explicit fuel argument that is large enough on every run on
  which the Rust code terminates.
-/

namespace Slc

/-- Little-endian bytes of the low `n` bytes of `v`
(Rust `v.to_le_bytes()[0..n]`). -/
def leBytes : Nat → Nat → List Nat
  | 0, _ => []
  | n+1, v => (v % 256) :: leBytes n (v / 256)

/-- Little-endian value of a byte list (Rust `from_le_bytes`). -/
def leDecode : List Nat → Nat
  | [] => 0
  | b :: bs => b + 256 * leDecode bs

/-- `read_exact` on a byte stream: take `n` bytes or fail. -/
def readExact (n : Nat) (s : List Nat) : Option (List Nat × List Nat) :=
  if n ≤ s.length then some (s.take n, s.drop n) else none

/-- Truncate or zero-pad a byte buffer to length 8 (Rust `buf.resize(8, 0)`). -/
def resize8 (l : List Nat) : List Nat :=
  l.take 8 ++ List.replicate (8 - l.length) 0

def boolBit (b : Bool) : Nat := if b then 1 else 0

/-- The IEEE-754 bit pattern of `240.0f64`. -/
def f64bits240 : Nat := 0x406E000000000000

/-- Single-byte alteration of a byte stream at position `p`. -/
def alter (p b : Nat) (l : List Nat) : List Nat := l.set p b

/-- Whether an `Except` value is a success. -/
def exceptOk {e a : Type} : Except e a → Bool
  | .ok _ => true
  | .error _ => false

namespace V2

/-- `InputData` from `src/input.rs`.  `tpsChange` carries the `f64` bit
pattern. -/
inductive InData
  | skip
  | player (button : Nat) (hold player2 : Bool)
  | restart
  | restartFull
  | death
  | tpsChange (bits : Nat)
  deriving DecidableEq, Repr

/-- `Input` from `src/input.rs`. -/
structure Input where
  delta : Nat
  frame : Nat
  data : InData
  deriving DecidableEq, Repr

/-- `Input::to_state`.  The button is a `u8`; `delta << 5` wraps in `u64`. -/
def Input.toState (i : Input) : Nat :=
  let tag : Nat :=
    match i.data with
    | .skip => 0
    | .player b h p2 => ((b % 256) <<< 2) ||| boolBit h ||| (boolBit p2 <<< 1)
    | .restart => 4 <<< 2
    | .restartFull => 5 <<< 2
    | .death => 6 <<< 2
    | .tpsChange _ => 7 <<< 2
  tag ||| ((i.delta <<< 5) % 2 ^ 64)

/-- `Input::required_bytes`. -/
def Input.requiredBytes (i : Input) : Nat :=
  match i.data with
  | .tpsChange _ => 8
  | _ =>
    let s := i.toState
    if s < 0x100 then 1
    else if s < 0x10000 then 2
    else if s < 0x100000000 then 4
    else 8

/-- `Input::write`: the low `byteSize` bytes of the state word, then the
8-byte `f64` payload for TPS inputs. -/
def Input.writeBytes (i : Input) (byteSize : Nat) : List Nat :=
  (leBytes 8 i.toState).take byteSize ++
    (match i.data with
     | .tpsChange bits => leBytes 8 bits
     | _ => [])

/-- `InputError` from `src/input.rs`. -/
inductive InErr
  | ioErr
  | invalidTPS
  | invalidButton
  deriving DecidableEq, Repr

/-- `Input::read`: read `byteSize` bytes, zero-extend to 8, unpack. -/
def Input.read (s : List Nat) (currentFrame byteSize : Nat) :
    Except InErr (Input × List Nat) :=
  match readExact byteSize s with
  | none => .error .ioErr
  | some (buf, rest) =>
    let state := leDecode (resize8 buf)
    let delta := state >>> 5
    let frame := (currentFrame + delta) % 2 ^ 64
    let button := (state &&& 0b11100) >>> 2
    if button = 0 then .ok (⟨delta, frame, .skip⟩, rest)
    else if button ≤ 3 then
      .ok (⟨delta, frame, .player button ((state &&& 1) != 0) ((state &&& 2) != 0)⟩, rest)
    else if button = 4 then .ok (⟨delta, frame, .restart⟩, rest)
    else if button = 5 then .ok (⟨delta, frame, .restartFull⟩, rest)
    else if button = 6 then .ok (⟨delta, frame, .death⟩, rest)
    else if button = 7 then
      match readExact 8 rest with
      | none => .error .ioErr
      | some (tbuf, rest2) => .ok (⟨delta, frame, .tpsChange (leDecode tbuf)⟩, rest2)
    else .error .invalidButton

/-- `Blob` from `src/blob.rs`. -/
structure Blob where
  byteSize : Nat
  start : Nat
  length : Nat
  deriving DecidableEq, Repr

/-- `Blob::write`: the 24-byte blob index entry. -/
def Blob.entryBytes (b : Blob) : List Nat :=
  leBytes 8 b.byteSize ++ leBytes 8 b.start ++ leBytes 8 b.length

/-- `Blob::write_inputs`: nothing for an emptied blob, otherwise the covered
inputs encoded at the blob's width. -/
def Blob.writeInputs (b : Blob) (inputs : List Input) : List Nat :=
  if b.length = 0 then []
  else ((inputs.drop b.start).take b.length).flatMap (fun i => i.writeBytes b.byteSize)

/-- `ReplayError` from `src/replay.rs`, with the input/blob error kinds
flattened in and `panicked` marking a Rust index-out-of-bounds panic in
`Blob::read_inputs`. -/
inductive RErr
  | headerMismatch
  | metaSizeMismatch
  | footerMismatch
  | ioErr
  | invalidTPS
  | invalidButton
  | panicked
  deriving DecidableEq, Repr

def liftInErr : InErr → RErr
  | .ioErr => .ioErr
  | .invalidTPS => .invalidTPS
  | .invalidButton => .invalidButton

/-- Loop body of `Blob::read_inputs`: `k` inputs remain, `i` is the running
absolute index used for the `inputs[i].frame` update. -/
def readInputsGo (byteSize : Nat) :
    Nat → Nat → List Nat → List Input → Nat → Except RErr (List Input × Nat × List Nat)
  | 0, _, s, inputs, frame => .ok (inputs, frame, s)
  | k+1, i, s, inputs, frame =>
    match Input.read s frame byteSize with
    | .error e => .error (liftInErr e)
    | .ok (inp, rest) =>
      let inputs' := inputs ++ [inp]
      match inputs'.get? i with
      | none => .error .panicked
      | some x => readInputsGo byteSize k (i+1) rest inputs' x.frame

/-- `Blob::read_inputs`. -/
def Blob.readInputs (b : Blob) (s : List Nat) (inputs : List Input) (frame : Nat) :
    Except RErr (List Input × Nat × List Nat) :=
  readInputsGo b.byteSize b.length b.start s inputs frame

/-- `Replay<M>` from `src/replay.rs`, with the `Meta` contract flattened to a
declared size plus opaque bytes and `tps` as an `f64` bit pattern. -/
structure Replay where
  tps : Nat
  metaSize : Nat
  meta : List Nat
  inputs : List Input
  deriving DecidableEq, Repr

/-- `Replay::add_input`. -/
def Replay.addInput (r : Replay) (frame : Nat) (data : InData) : Replay :=
  match r.inputs.getLast? with
  | none => { r with inputs := [⟨frame, frame, data⟩] }
  | some last => { r with inputs := r.inputs ++ [⟨frame - last.frame, frame, data⟩] }

def headerMagic : List Nat := [0x53, 0x49, 0x4C, 0x4C]

def footerMagic : List Nat := [0x45, 0x4F, 0x4D]

/-- One step of the first blob pass: extend the trailing blob when the
widths agree, otherwise start a new one. -/
def pass1Step (blobs : List Blob) (i : Nat) (inp : Input) : List Blob :=
  let bz := inp.requiredBytes
  match blobs.getLast? with
  | none => [⟨bz, i, 1⟩]
  | some last =>
    if last.byteSize = bz then
      blobs.dropLast ++ [⟨last.byteSize, last.start, last.length + 1⟩]
    else blobs ++ [⟨bz, i, 1⟩]

def pass1Go : List Input → Nat → List Blob → List Blob
  | [], _, blobs => blobs
  | inp :: rest, i, blobs => pass1Go rest (i+1) (pass1Step blobs i inp)

/-- First blob pass of `Replay::write`. -/
def pass1 (inputs : List Input) : List Blob := pass1Go inputs 0 []

/-- One step of the second blob pass at index `i ≥ 1`, returning the updated
blob list and zero-sized-blob count. -/
def pass2Step (blobs : List Blob) (zeros i : Nat) : List Blob × Nat :=
  match blobs.get? (i-1), blobs.get? i with
  | some prev, some blob =>
    let blobSize := blob.byteSize * blob.length
    if blobSize < 24 ∧ blob.byteSize > prev.byteSize ∧ prev.byteSize * blob.length < 24 then
      ((blobs.set (i-1) ⟨blob.byteSize, prev.start, prev.length + blob.length⟩).set
        i ⟨blob.byteSize, blob.start, 0⟩, zeros + 1)
    else if blobSize < 24 ∧ blob.byteSize < prev.byteSize ∧ prev.byteSize * blob.length < 24 then
      ((blobs.set (i-1) ⟨prev.byteSize, prev.start, prev.length + blob.length⟩).set
        i ⟨blob.byteSize, blob.start, 0⟩, zeros + 1)
    else if blob.byteSize = prev.byteSize then
      ((blobs.set (i-1) ⟨prev.byteSize, prev.start, prev.length + blob.length⟩).set
        i ⟨blob.byteSize, blob.start, 0⟩, zeros + 1)
    else (blobs, zeros)
  | _, _ => (blobs, zeros)

/-- The second pass walks `i` from `blobs.len() - 1` down to `1`. -/
def pass2Go : List Blob → Nat → Nat → List Blob × Nat
  | blobs, zeros, 0 => (blobs, zeros)
  | blobs, zeros, i+1 =>
    let st := pass2Step blobs zeros (i+1)
    pass2Go st.1 st.2 i

/-- The planned blobs of `Replay::write` together with the zero-sized-blob
count after fusion. -/
def plannedBlobs (inputs : List Input) : List Blob × Nat :=
  let b1 := pass1 inputs
  pass2Go b1 0 (b1.length - 1)

/-- `Replay::write`.  Note that the count field excludes emptied blobs while
the index entries are emitted for every blob in `blobs`. -/
def Replay.write (r : Replay) : List Nat :=
  let planned := plannedBlobs r.inputs
  headerMagic ++ leBytes 8 r.tps ++ leBytes 8 r.metaSize ++ r.meta
    ++ leBytes 8 r.inputs.length
    ++ leBytes 8 (planned.1.length - planned.2)
    ++ planned.1.flatMap Blob.entryBytes
    ++ planned.1.flatMap (fun b => b.writeInputs r.inputs)
    ++ footerMagic

/-- Blob index parsing loop of `Replay::read`. -/
def readBlobsGo : Nat → List Nat → List Blob → Except RErr (List Blob × List Nat)
  | 0, s, blobs => .ok (blobs, s)
  | k+1, s, blobs =>
    match readExact 8 s with
    | none => .error .ioErr
    | some (b1, s1) =>
      match readExact 8 s1 with
      | none => .error .ioErr
      | some (b2, s2) =>
        match readExact 8 s2 with
        | none => .error .ioErr
        | some (b3, s3) =>
          readBlobsGo k s3 (blobs ++ [⟨leDecode b1, leDecode b2, leDecode b3⟩])

/-- Payload parsing loop of `Replay::read`: read each blob's inputs. -/
def readPayloadGo : List Blob → List Nat → List Input → Nat →
    Except RErr (List Input × List Nat)
  | [], s, inputs, _ => .ok (inputs, s)
  | b :: bs, s, inputs, frame =>
    match b.readInputs s inputs frame with
    | .error e => .error e
    | .ok (inputs', frame', rest) => readPayloadGo bs rest inputs' frame'

/-- `Replay::read`, parameterised by the caller's `M::size()`. -/
def Replay.read (expectedMetaSize : Nat) (s : List Nat) : Except RErr Replay :=
  match readExact 4 s with
  | none => .error .ioErr
  | some (hdr, s1) =>
    if hdr ≠ headerMagic then .error .headerMismatch
    else
      match readExact 8 s1 with
      | none => .error .ioErr
      | some (tpsb, s2) =>
        match readExact 8 s2 with
        | none => .error .ioErr
        | some (msb, s3) =>
          if leDecode msb ≠ expectedMetaSize then .error .metaSizeMismatch
          else
            match readExact expectedMetaSize s3 with
            | none => .error .ioErr
            | some (metab, s4) =>
              match readExact 8 s4 with
              | none => .error .ioErr
              | some (_lenb, s5) =>
                match readExact 8 s5 with
                | none => .error .ioErr
                | some (bcb, s6) =>
                  match readBlobsGo (leDecode bcb) s6 [] with
                  | .error e => .error e
                  | .ok (blobs, s7) =>
                    match readPayloadGo blobs s7 [] 0 with
                    | .error e => .error e
                    | .ok (inputs, s8) =>
                      match readExact 3 s8 with
                      | none => .error .ioErr
                      | some (ftr, _) =>
                        if ftr ≠ footerMagic then .error .footerMismatch
                        else .ok ⟨leDecode tpsb, expectedMetaSize, metab, inputs⟩

end V2


namespace V3

/-- `ActionType` from `src/v3/action.rs`. -/
inductive ActionType
  | reserved
  | jump
  | left
  | right
  | restart
  | restartFull
  | death
  | tps
  deriving DecidableEq, Repr

/-- `Action` from `src/v3/action.rs`; `tps` is an `f64` bit pattern. -/
structure Action where
  frame : Nat
  actionType : ActionType
  holding : Bool
  player2 : Bool
  seed : Nat
  tps : Nat
  swift : Bool
  delta : Nat
  deriving DecidableEq, Repr

/-- `Action::player`. -/
def Action.player (currentFrame delta : Nat) (t : ActionType) (holding player2 : Bool) :
    Action :=
  ⟨(currentFrame + delta) % 2 ^ 64, t, holding, player2, 0, f64bits240, false, delta⟩

/-- `Action::death`. -/
def Action.death (currentFrame delta : Nat) (t : ActionType) (seed : Nat) : Action :=
  ⟨(currentFrame + delta) % 2 ^ 64, t, false, false, seed, f64bits240, false, delta⟩

/-- `Action::tps_change`. -/
def Action.tpsChange (currentFrame delta tpsBits : Nat) : Action :=
  ⟨(currentFrame + delta) % 2 ^ 64, .tps, false, false, 0, tpsBits, false, delta⟩

/-- `Action::is_player`. -/
def Action.isPlayer (a : Action) : Bool :=
  match a.actionType with
  | .jump | .left | .right => true
  | _ => false

/-- `Action::minimum_size`. -/
def Action.minimumSize (a : Action) : Nat :=
  let offset := if a.isPlayer then 4 else 8
  if a.delta < 2 ^ offset then 0
  else if a.delta < 2 ^ (offset + 8) then 1
  else if a.delta < 2 ^ (offset + 24) then 2
  else 3

/-- `Button` from `src/v3/section.rs`. -/
inductive Button
  | swift
  | jump
  | left
  | right
  deriving DecidableEq, Repr

def Button.val : Button → Nat
  | .swift => 0
  | .jump => 1
  | .left => 2
  | .right => 3

/-- `PlayerInput` from `src/v3/section.rs`. -/
structure PInput where
  frame : Nat
  delta : Nat
  button : Button
  holding : Bool
  player2 : Bool
  deriving DecidableEq, Repr

/-- `PlayerInput::from_action`. -/
def PInput.fromAction (a : Action) : PInput :=
  let b :=
    if a.swift then Button.swift
    else
      match a.actionType with
      | .jump => Button.jump
      | .left => Button.left
      | .right => Button.right
      | _ => Button.jump
  ⟨a.frame, a.delta, b, a.holding, a.player2⟩

/-- `PlayerInput::from_state`. -/
def PInput.fromState (prevFrame state : Nat) : PInput :=
  let delta := state >>> 4
  let frame := (prevFrame + delta) % 2 ^ 64
  let bv := (state >>> 2) &&& 3
  let button :=
    if bv = 0 then Button.swift
    else if bv = 1 then Button.jump
    else if bv = 2 then Button.left
    else Button.right
  ⟨frame, delta, button, (state &&& 1) == 1, (state &&& 2) == 2⟩

/-- `PlayerInput::prepare_state`; `delta << 4` wraps in `u64`. -/
def PInput.prepareState (p : PInput) (byteSize : Nat) : Nat :=
  let mask := if byteSize = 8 then 2 ^ 64 - 1 else 2 ^ (byteSize * 8) - 1
  mask &&& (((p.delta <<< 4) % 2 ^ 64) ||| (p.button.val <<< 2)
    ||| (boolBit p.player2 <<< 1) ||| boolBit p.holding)

/-- `PlayerInput::weak_eq`. -/
def PInput.weakEq (p q : PInput) : Bool :=
  p.delta == q.delta && p.holding == q.holding && p.player2 == q.player2
    && p.button == q.button

/-- `SectionIdentifier` from `src/v3/section.rs` (`rep` is `Repeat`). -/
inductive SectionId
  | input
  | rep
  | special
  deriving DecidableEq, Repr

/-- `SpecialType` from `src/v3/section.rs`. -/
inductive SpecialType
  | restart
  | restartFull
  | death
  | tps
  deriving DecidableEq, Repr

def SpecialType.val : SpecialType → Nat
  | .restart => 0
  | .restartFull => 1
  | .death => 2
  | .tps => 3

/-- `31 - m.leading_zeros()` for `1 ≤ m < 2 ^ 32`, that is `⌊log₂ m⌋`,
computed by structural recursion on the fuel (32 halvings suffice). -/
def log2Go : Nat → Nat → Nat
  | 0, _ => 0
  | fuel+1, m => if 2 ≤ m then log2Go fuel (m / 2) + 1 else 0

/-- `exponent_of_two(n as u32)` (the `u32` cast of the callers is folded in). -/
def exponentOfTwo (n : Nat) : Nat :=
  let m := n % 4294967296
  if m = 0 then 0 else min (log2Go 32 m) 15

/-- `largest_power_of_two`. -/
def largestPowerOfTwo (n : Nat) : Nat :=
  if n = 0 then 0 else 1 <<< exponentOfTwo n

/-- `Section` from `src/v3/section.rs`. -/
structure Section where
  id : SectionId
  deltaSize : Nat
  playerInputs : List PInput
  markedForRemoval : Bool
  countExp : Nat
  repeatsExp : Nat
  specialType : SpecialType
  seed : Nat
  tps : Nat
  special : Option Action
  deriving DecidableEq, Repr

/-- `Section::real_delta_size`. -/
def Section.realDeltaSize (s : Section) : Nat := 1 <<< s.deltaSize

/-- `Section::player_from_range`: player inputs of `actions[start..stop]`,
skipping the non-holding halves of swift pairs. -/
def Section.playerFromRange (actions : List Action) (start stop : Nat) : Section :=
  let picked := ((actions.drop start).take (stop - start)).filter
    (fun a => a.holding || !a.swift)
  let pis := picked.map PInput.fromAction
  { id := .input, deltaSize := 0, playerInputs := pis, markedForRemoval := false,
    countExp := exponentOfTwo pis.length, repeatsExp := 0, specialType := .restart,
    seed := 0, tps := f64bits240, special := none }

/-- The v3 error kinds, flattened across
`SectionError`/`AtomError`/`ReplayError`. -/
inductive V3Err
  | invalidHeader
  | invalidMetadataSize
  | invalidFooter
  | ioErr
  | unknownAtomId (id : Nat)
  | invalidIdentifier
  | invalidButton
  deriving DecidableEq, Repr

/-- The section built by `Section::special` for a given special type. -/
def Section.mkSpecial (a : Action) (st : SpecialType) : Section :=
  { id := .special, deltaSize := a.minimumSize, playerInputs := [],
    markedForRemoval := false, countExp := 0, repeatsExp := 0, specialType := st,
    seed := a.seed, tps := a.tps, special := some a }

/-- `Section::special`. -/
def Section.specialOf (a : Action) : Except V3Err Section :=
  match a.actionType with
  | .tps => .ok (Section.mkSpecial a .tps)
  | .death => .ok (Section.mkSpecial a .death)
  | .restart => .ok (Section.mkSpecial a .restart)
  | .restartFull => .ok (Section.mkSpecial a .restartFull)
  | _ => .error .invalidIdentifier

/-- The cluster/repetition candidate state of `run_length_encode`. -/
structure BestC where
  found : Bool
  cluster : Nat
  reps : Nat
  score : Int
  deriving DecidableEq, Repr

/-- Whether the cluster at `idx` weak-equals the cluster at `start`. -/
def allEqualCluster (pis : List PInput) (idx start cluster : Nat) : Bool :=
  (List.range cluster).all fun j =>
    match pis.get? (idx + j), pis.get? (start + j) with
    | some a, some b => a.weakEq b
    | _, _ => false

/-- The inner `offset` loop of the cluster search: greedily count how many
full repetitions of the cluster at `idx` follow. -/
def countReps (pis : List PInput) (n idx cluster : Nat) : Nat → Nat → Nat
  | 0, offset => offset
  | fuel+1, offset =>
    if idx + (offset + 1) * cluster > n then offset
    else if allEqualCluster pis idx (idx + offset * cluster) cluster then
      countReps pis n idx cluster fuel (offset + 1)
    else offset

/-- The cluster-doubling loop of `run_length_encode` (cluster sizes
1,2,4,…,64; 8 units of fuel more than suffice).  The Rust locals `offset`
(after the `saturating_sub`) and `score` are inlined as
`countReps … - 1` and the `Int` product. -/
def clusterLoop (pis : List PInput) (n idx : Nat) : Nat → Nat → BestC → BestC
  | 0, _, best => best
  | fuel+1, cl, best =>
    if cl ≤ 64 ∧ cl ≤ n then
      if idx + cl ≥ n then best
      else if countReps pis n idx cl (n + 1) 1 - 1 ≤ 1 then
        clusterLoop pis n idx fuel (cl * 2) best
      else if (cl : Int) *
          ((largestPowerOfTwo (countReps pis n idx cl (n + 1) 1 - 1) : Int) - 1) >
          best.score then
        clusterLoop pis n idx fuel (cl * 2)
          ⟨true, cl, largestPowerOfTwo (countReps pis n idx cl (n + 1) 1 - 1),
            (cl : Int) * ((largestPowerOfTwo (countReps pis n idx cl (n + 1) 1 - 1) : Int) - 1)⟩
      else clusterLoop pis n idx fuel (cl * 2) best
    else best

/-- The Input section built by `distribute_inputs_to_sections`. -/
def mkInputSection (ds : Nat) (pis : List PInput) (ce : Nat) : Section :=
  { id := .input, deltaSize := ds, playerInputs := pis, markedForRemoval := false,
    countExp := ce, repeatsExp := 0, specialType := .restart, seed := 0,
    tps := f64bits240, special := none }

/-- Loop of `distribute_inputs_to_sections`: chop the pending inputs into
power-of-two Input sections, greedily from the front. -/
def distributeGo : Nat → Nat → List PInput → Nat → List Section → List Section
  | 0, _, _, _, secs => secs
  | fuel+1, i, inputs, ds, secs =>
    if i < inputs.length then
      let count := largestPowerOfTwo (inputs.length - i)
      let sec := mkInputSection ds ((inputs.drop i).take count) (exponentOfTwo count)
      distributeGo fuel (i + count) inputs ds (secs ++ [sec])
    else secs

/-- `distribute_inputs_to_sections` (the cleared `inputs` vector is modelled
by the callers passing a fresh list afterwards). -/
def distributeInputs (secs : List Section) (inputs : List PInput) (ds : Nat) :
    List Section :=
  distributeGo (inputs.length + 1) 0 inputs ds secs

/-- The Repeat section pushed by `run_length_encode`. -/
def mkRepeatSection (ds : Nat) (pis : List PInput) (ce re : Nat) : Section :=
  { id := .rep, deltaSize := ds, playerInputs := pis, markedForRemoval := false,
    countExp := ce, repeatsExp := re, specialType := .restart, seed := 0,
    tps := f64bits240, special := none }

/-- Main loop of `run_length_encode`; `idx` advances by at least one per
iteration, so fuel `n + 1` always suffices.  The Rust local `best` (the
cluster-search result) is inlined at each of its uses. -/
def rleGo (self : Section) (n : Nat) : Nat → Nat → List Section → List PInput → List Section
  | 0, _, secs, free => distributeInputs secs free self.deltaSize
  | fuel+1, idx, secs, free =>
    if idx < n then
      if (clusterLoop self.playerInputs n idx 8 1 ⟨false, 0, 0, 0⟩).found then
        rleGo self n fuel
          (idx + (clusterLoop self.playerInputs n idx 8 1 ⟨false, 0, 0, 0⟩).cluster *
            (clusterLoop self.playerInputs n idx 8 1 ⟨false, 0, 0, 0⟩).reps)
          (distributeInputs secs free self.deltaSize ++
            [mkRepeatSection self.deltaSize
              ((self.playerInputs.drop idx).take
                (clusterLoop self.playerInputs n idx 8 1 ⟨false, 0, 0, 0⟩).cluster)
              (exponentOfTwo (clusterLoop self.playerInputs n idx 8 1 ⟨false, 0, 0, 0⟩).cluster)
              (exponentOfTwo (clusterLoop self.playerInputs n idx 8 1 ⟨false, 0, 0, 0⟩).reps)])
          []
      else rleGo self n fuel (idx + 1) secs (free ++ (self.playerInputs.drop idx).take 1)
    else distributeInputs secs free self.deltaSize

/-- `Section::run_length_encode`. -/
def Section.runLengthEncode (s : Section) : List Section :=
  rleGo s s.playerInputs.length (s.playerInputs.length + 1) 0 [] []

/-- `ActionAtom::swift_compatible`. -/
def swiftCompatible (actions : List Action) (i : Nat) : Bool :=
  if i = 0 then false
  else
    match actions.get? i, actions.get? (i-1) with
    | some a, some b =>
      a.delta == 0 && !a.holding && (b.holding != a.holding)
        && (b.player2 == a.player2) && (b.actionType == a.actionType)
        && (a.actionType == ActionType.jump)
    | _, _ => false

/-- `ActionAtom::can_join` (`i < actions.len() - 1` is `i + 1 < len`). -/
def canJoin (actions : List Action) (count i : Nat) : Bool :=
  decide (i + 1 < actions.length) && decide (count < 65536) &&
    (match actions.get? (i+1), actions.get? i with
     | some nxt, some cur => nxt.isPlayer && (nxt.minimumSize == cur.minimumSize)
     | _, _ => false)

/-- Set the `swift` flag of `actions[j]`. -/
def markSwift (actions : List Action) (j : Nat) : List Action :=
  match actions.get? j with
  | some a => actions.set j { a with swift := true }
  | none => actions

/-- The player-run gathering loop of `prepare_sections`, threading the
swift-marked action list and the counters `(i, count, pureCount, swifts,
pureSwifts)`.  In the swift branch the Rust code marks `actions[i - 1]` and
`actions[i]` with `i` already incremented, that is, positions `i` and
`i + 1` in terms of the pre-increment index. -/
def gatherGo : Nat → List Action → Nat → Nat → Nat → Nat → Nat →
    List Action × Nat × Nat × Nat × Nat × Nat
  | 0, actions, i, count, pureCount, swifts, pureSwifts =>
    (actions, i, count, pureCount, swifts, pureSwifts)
  | fuel+1, actions, i, count, pureCount, swifts, pureSwifts =>
    if canJoin actions pureCount i then
      if swiftCompatible actions (i + 1) then
        gatherGo fuel (markSwift (markSwift actions i) (i + 1)) (i + 1) (count + 1) pureCount
          (swifts + 1)
          (if largestPowerOfTwo pureCount == pureCount then swifts + 1 else pureSwifts)
      else
        gatherGo fuel actions (i + 1) (count + 1) (pureCount + 1) swifts
          (if largestPowerOfTwo (pureCount + 1) == pureCount + 1 then swifts else pureSwifts)
    else (actions, i, count, pureCount, swifts, pureSwifts)

/-- Loop of `ActionAtom::prepare_sections`; the index advances by at least
one per iteration, so fuel `actions.len() + 1` always suffices.  The Rust
locals `min_size`, the gather result, `count`, the advanced index and the
gathered section are inlined (`.2.2.2.1` is the gather's `pure_count`,
`.2.2.2.2.2` its `pure_swifts`). -/
def prepareGo : Nat → List Action → Nat → List Section → Except V3Err (List Section)
  | 0, _, _, secs => .ok secs
  | fuel+1, actions, i, secs =>
    match actions.get? i with
    | none => .ok secs
    | some a =>
      if !a.isPlayer then
        match Section.specialOf a with
        | .error e => .error e
        | .ok sec => prepareGo fuel actions (i+1) (secs ++ [sec])
      else
        prepareGo fuel (gatherGo actions.length actions i 1 1 0 0).1
          (i + largestPowerOfTwo (gatherGo actions.length actions i 1 1 0 0).2.2.2.1 +
            (gatherGo actions.length actions i 1 1 0 0).2.2.2.2.2)
          (secs ++
            ({ Section.playerFromRange (gatherGo actions.length actions i 1 1 0 0).1 i
                (i + largestPowerOfTwo (gatherGo actions.length actions i 1 1 0 0).2.2.2.1 +
                  (gatherGo actions.length actions i 1 1 0 0).2.2.2.2.2) with
              deltaSize := a.minimumSize }).runLengthEncode)

/-- `ActionAtom::prepare_sections`. -/
def prepareSections (actions : List Action) : Except V3Err (List Section) :=
  prepareGo (actions.length + 1) actions 0 []

/-- `Section::write`. -/
def Section.writeBytes (s : Section) : List Nat :=
  if s.markedForRemoval then []
  else
    match s.id with
    | .input =>
      let header := ((s.countExp <<< 8) ||| (s.deltaSize <<< 12)) % 65536
      leBytes 2 header
        ++ s.playerInputs.flatMap
          (fun p => leBytes s.realDeltaSize (p.prepareState s.realDeltaSize))
    | .rep =>
      let header := ((1 <<< 14) ||| (s.deltaSize <<< 12) ||| (s.countExp <<< 8)
        ||| (s.repeatsExp <<< 3)) % 65536
      leBytes 2 header
        ++ s.playerInputs.flatMap
          (fun p => leBytes s.realDeltaSize (p.prepareState s.realDeltaSize))
    | .special =>
      let header := ((2 <<< 14) ||| (s.specialType.val <<< 10) ||| (s.deltaSize <<< 8)) % 65536
      leBytes 2 header
        ++ leBytes s.realDeltaSize ((s.special.map Action.delta).getD 0)
        ++ (match s.specialType with
            | .tps => leBytes 8 s.tps
            | _ => leBytes 8 s.seed)

def btnToType : Button → ActionType
  | .jump => .jump
  | .left => .left
  | .right => .right
  | .swift => .jump

/-- Append the action(s) decoded from one player state of an Input section
(a Swift button expands into a hold/release Jump pair). -/
def emitInput (actions : List Action) (prev : Nat) (p : PInput) : List Action :=
  if p.button == Button.swift then
    actions ++ [{ Action.player prev p.delta .jump true p.player2 with swift := true },
                { Action.player p.frame 0 .jump false p.player2 with swift := true }]
  else actions ++ [Action.player prev p.delta (btnToType p.button) p.holding p.player2]

/-- The per-state loop of the Input branch of `Section::read`. -/
def inputSectionGo (byteSize : Nat) :
    Nat → List Nat → List Action → Nat → Except V3Err (List Action × List Nat)
  | 0, s, actions, _ => .ok (actions, s)
  | k+1, s, actions, prev =>
    match readExact byteSize s with
    | none => .error .ioErr
    | some (buf, rest) =>
      let p := PInput.fromState prev (leDecode buf)
      let actions' := emitInput actions prev p
      let prev' := ((actions'.getLast?).map Action.frame).getD prev
      inputSectionGo byteSize k rest actions' prev'

/-- The cluster prescan of the Repeat branch of `Section::read`. -/
def repeatScan (byteSize : Nat) :
    Nat → List Nat → Nat → List PInput → Except V3Err (List PInput × List Nat)
  | 0, s, _, inputs => .ok (inputs, s)
  | k+1, s, prevInputFrame, inputs =>
    match readExact byteSize s with
    | none => .error .ioErr
    | some (buf, rest) =>
      let p := PInput.fromState prevInputFrame (leDecode buf)
      repeatScan byteSize k rest p.frame (inputs ++ [p])

/-- Append the action(s) decoded from one cluster element of a Repeat
section. -/
def emitRepeatInput (actions : List Action) (prev : Nat) (p : PInput) : List Action :=
  if p.button == Button.swift then
    actions ++ [{ Action.player prev p.delta .jump true p.player2 with swift := true },
                { Action.player ((prev + p.delta) % 2 ^ 64) 0 .jump false p.player2 with
                  swift := true }]
  else actions ++ [Action.player prev p.delta (btnToType p.button) p.holding p.player2]

/-- Emit one repetition of the cluster. -/
def emitClusterGo : List PInput → List Action → Nat → List Action
  | [], actions, _ => actions
  | p :: ps, actions, prev =>
    let actions' := emitRepeatInput actions prev p
    emitClusterGo ps actions' (((actions'.getLast?).map Action.frame).getD prev)

/-- Emit all repetitions, each based at the current tail frame. -/
def emitRepeats : Nat → List PInput → List Action → List Action
  | 0, _, actions => actions
  | r+1, inputs, actions =>
    let prev := ((actions.getLast?).map Action.frame).getD 0
    emitRepeats r inputs (emitClusterGo inputs actions prev)

/-- `Section::read`, appending the decoded actions. -/
def Section.read (s : List Nat) (actions : List Action) :
    Except V3Err (List Action × List Nat) :=
  match readExact 2 s with
  | none => .error .ioErr
  | some (hb, rest) =>
    let header := leDecode hb
    let idv := header >>> 14
    if idv = 0 then
      let deltaSize := (header >>> 12) &&& 3
      let countExp := (header >>> 8) &&& 15
      inputSectionGo (1 <<< deltaSize) (1 <<< countExp) rest actions
        (((actions.getLast?).map Action.frame).getD 0)
    else if idv = 1 then
      let deltaSize := (header >>> 12) &&& 3
      let countExp := (header >>> 8) &&& 15
      let repeatsExp := (header >>> 3) &&& 31
      match repeatScan (1 <<< deltaSize) (1 <<< countExp) rest 0 [] with
      | .error e => .error e
      | .ok (inputs, rest2) => .ok (emitRepeats (1 <<< repeatsExp) inputs actions, rest2)
    else if idv = 2 then
      let deltaSize := (header >>> 8) &&& 3
      let stv := (header >>> 10) &&& 15
      match readExact (1 <<< deltaSize) rest with
      | none => .error .ioErr
      | some (db, rest2) =>
        let frameDelta := leDecode db
        let currentFrame := ((actions.getLast?).map Action.frame).getD 0
        if stv = 3 then
          match readExact 8 rest2 with
          | none => .error .ioErr
          | some (tb, rest3) =>
            .ok (actions ++ [Action.tpsChange currentFrame frameDelta (leDecode tb)], rest3)
        else if stv ≤ 2 then
          match readExact 8 rest2 with
          | none => .error .ioErr
          | some (sb, rest3) =>
            let t := if stv = 0 then ActionType.restart
                     else if stv = 1 then ActionType.restartFull
                     else ActionType.death
            .ok (actions ++ [Action.death currentFrame frameDelta t (leDecode sb)], rest3)
        else .error .invalidIdentifier
    else .error .invalidIdentifier

/-- `ActionAtom` from `src/v3/builtin.rs`.  `size` is the stored private
field: `0` after `new()`, the declared wire size after `read`. -/
structure ActionAtom where
  actions : List Action
  size : Nat
  deriving DecidableEq, Repr

def ActionAtom.new : ActionAtom := ⟨[], 0⟩

/-- `ActionAtom::add_player_action`. -/
def ActionAtom.addPlayerAction (atm : ActionAtom) (frame : Nat) (t : ActionType)
    (holding player2 : Bool) : ActionAtom :=
  let prev := ((atm.actions.getLast?).map Action.frame).getD 0
  { atm with actions := atm.actions ++ [Action.player prev (frame - prev) t holding player2] }

/-- `ActionAtom::add_death_action`. -/
def ActionAtom.addDeathAction (atm : ActionAtom) (frame : Nat) (t : ActionType)
    (seed : Nat) : ActionAtom :=
  let prev := ((atm.actions.getLast?).map Action.frame).getD 0
  { atm with actions := atm.actions ++ [Action.death prev (frame - prev) t seed] }

/-- `ActionAtom::add_tps_action`. -/
def ActionAtom.addTpsAction (atm : ActionAtom) (frame tpsBits : Nat) : ActionAtom :=
  let prev := ((atm.actions.getLast?).map Action.frame).getD 0
  { atm with actions := atm.actions ++ [Action.tpsChange prev (frame - prev) tpsBits] }

/-- The section-reading loop of `ActionAtom::read`: every section appends at
least one action, so fuel `count + 1` always suffices. -/
def atomActionsGo : Nat → Nat → List Nat → List Action →
    Except V3Err (List Action × List Nat)
  | 0, _, s, actions => .ok (actions, s)
  | fuel+1, count, s, actions =>
    if actions.length < count then
      match Section.read s actions with
      | .error e => .error e
      | .ok (actions', rest) => atomActionsGo fuel count rest actions'
    else .ok (actions, s)

/-- `ActionAtom::read`. -/
def ActionAtom.read (s : List Nat) (size : Nat) : Except V3Err (ActionAtom × List Nat) :=
  match readExact 8 s with
  | none => .error .ioErr
  | some (cb, rest) =>
    let count := leDecode cb
    match atomActionsGo (count + 1) count rest [] with
    | .error e => .error e
    | .ok (actions, rest2) => .ok (⟨actions, size⟩, rest2)

/-- The payload bytes of `ActionAtom::write`: the `u64` action count, then
the planned sections. -/
def ActionAtom.payloadBytes (atm : ActionAtom) : Except V3Err (List Nat) :=
  match prepareSections atm.actions with
  | .error e => .error e
  | .ok secs => .ok (leBytes 8 atm.actions.length ++ secs.flatMap Section.writeBytes)

/-- `NullAtom` from `src/v3/atom.rs` (only the size survives a read). -/
structure NullAtom where
  size : Nat
  deriving DecidableEq, Repr

/-- `AtomVariant` from `src/v3/atom.rs`. -/
inductive AtomVariant
  | null (a : NullAtom)
  | action (a : ActionAtom)
  deriving DecidableEq, Repr

def AtomVariant.idVal : AtomVariant → Nat
  | .null _ => 0
  | .action _ => 1

def AtomVariant.sizeVal : AtomVariant → Nat
  | .null a => a.size
  | .action a => a.size

/-- `AtomVariant::read`: 4-byte id, id validation, 8-byte size, payload.
Marker atoms (id 2) are read as Null atoms. -/
def AtomVariant.read (s : List Nat) : Except V3Err (AtomVariant × List Nat) :=
  match readExact 4 s with
  | none => .error .ioErr
  | some (ib, r1) =>
    let id := leDecode ib
    if id = 0 ∨ id = 2 then
      match readExact 8 r1 with
      | none => .error .ioErr
      | some (sb, r2) =>
        match readExact (leDecode sb) r2 with
        | none => .error .ioErr
        | some (_, r3) => .ok (.null ⟨leDecode sb⟩, r3)
    else if id = 1 then
      match readExact 8 r1 with
      | none => .error .ioErr
      | some (sb, r2) =>
        match ActionAtom.read r2 (leDecode sb) with
        | .error e => .error e
        | .ok (a, r3) => .ok (.action a, r3)
    else .error (.unknownAtomId id)

/-- `AtomVariant::write`: 4-byte id, 8-byte stored size, then the variant's
payload (`NullAtom::write` writes nothing). -/
def AtomVariant.writeBytes (v : AtomVariant) : Except V3Err (List Nat) :=
  match v with
  | .null a => .ok (leBytes 4 0 ++ leBytes 8 a.size)
  | .action a =>
    match a.payloadBytes with
    | .error e => .error e
    | .ok pb => .ok (leBytes 4 1 ++ leBytes 8 a.size ++ pb)

/-- `AtomRegistry::read_all`: read atoms while more than the one footer byte
remains; every atom consumes at least 12 bytes, so fuel `|s|` suffices. -/
def readAllAtoms : Nat → List Nat → List AtomVariant →
    Except V3Err (List AtomVariant × List Nat)
  | 0, s, acc => .ok (acc, s)
  | fuel+1, s, acc =>
    if s.length ≤ 1 then .ok (acc, s)
    else
      match AtomVariant.read s with
      | .error e => .error e
      | .ok (a, rest) => readAllAtoms fuel rest (acc ++ [a])

/-- `Metadata` from `src/v3/metadata.rs` (`tps` is an `f64` bit pattern). -/
structure Metadata where
  tps : Nat
  seed : Nat
  version : Nat
  build : Nat
  padding : List Nat
  deriving DecidableEq, Repr

/-- `Metadata::new`. -/
def Metadata.new (tpsBits seed build : Nat) : Metadata :=
  ⟨tpsBits, seed, 1, build, List.replicate 40 0⟩

/-- `Metadata::write`. -/
def Metadata.writeBytes (m : Metadata) : List Nat :=
  leBytes 8 m.tps ++ leBytes 8 m.seed ++ leBytes 4 m.version ++ leBytes 4 m.build
    ++ m.padding

/-- `Metadata::read`. -/
def Metadata.read (s : List Nat) : Except V3Err (Metadata × List Nat) :=
  match readExact 8 s with
  | none => .error .ioErr
  | some (tb, s1) =>
    match readExact 8 s1 with
    | none => .error .ioErr
    | some (sb, s2) =>
      match readExact 4 s2 with
      | none => .error .ioErr
      | some (vb, s3) =>
        match readExact 4 s3 with
        | none => .error .ioErr
        | some (bb, s4) =>
          match readExact 40 s4 with
          | none => .error .ioErr
          | some (pb, s5) =>
            .ok (⟨leDecode tb, leDecode sb, leDecode vb, leDecode bb, pb⟩, s5)

def v3Magic : List Nat := [0x53, 0x4C, 0x43, 0x33, 0x52, 0x50, 0x4C, 0x59]

/-- `Replay` from `src/v3/replay.rs`. -/
structure Replay where
  metadata : Metadata
  atoms : List AtomVariant
  deriving DecidableEq, Repr

/-- `AtomRegistry::write_all`. -/
def writeAllAtoms : List AtomVariant → Except V3Err (List Nat)
  | [] => .ok []
  | a :: rest =>
    match a.writeBytes with
    | .error e => .error e
    | .ok ab =>
      match writeAllAtoms rest with
      | .error e => .error e
      | .ok rb => .ok (ab ++ rb)

/-- `Replay::write` (v3): magic, `u16` metadata size 64, metadata block,
atom stream, footer byte `0xCC`. -/
def Replay.write (r : Replay) : Except V3Err (List Nat) :=
  match writeAllAtoms r.atoms with
  | .error e => .error e
  | .ok ab => .ok (v3Magic ++ [64, 0] ++ r.metadata.writeBytes ++ ab ++ [0xCC])

/-- `Replay::read` (v3).  Seeking to one byte before end-of-stream is
modelled by stopping the atom loop when at most one byte remains. -/
def Replay.read (s : List Nat) : Except V3Err Replay :=
  match readExact 8 s with
  | none => .error .ioErr
  | some (hdr, s1) =>
    if hdr ≠ v3Magic then .error .invalidHeader
    else
      match readExact 2 s1 with
      | none => .error .ioErr
      | some (msb, s2) =>
        if leDecode msb ≠ 64 then .error .invalidMetadataSize
        else
          match Metadata.read s2 with
          | .error e => .error e
          | .ok (md, s3) =>
            match readAllAtoms s3.length s3 [] with
            | .error e => .error e
            | .ok (atoms, s4) =>
              match readExact 1 s4 with
              | none => .error .ioErr
              | some (fb, _) =>
                if fb ≠ [0xCC] then .error .invalidFooter
                else .ok ⟨md, atoms⟩

end V3

end Slc

deriving instance DecidableEq for Except

namespace Slc

/-! ### Concrete replays used by the claim theorems -/

/-- The v2 replay of spec scenario 3: ten jumps whose deltas are nine ones
followed by 200000, appended in increasing frame order.  Pass 1 produces the
blobs `{1,0,9}` and `{4,9,1}`; pass 2 fuses the second into the first. -/
def fusionReplay : V2.Replay :=
  [1, 2, 3, 4, 5, 6, 7, 8, 9, 200009].foldl
    (fun r f => r.addInput f (.player 1 true false)) ⟨f64bits240, 0, [], []⟩

/-- A v2 replay holding a single `Skip` input at frame 0; its written stream
is 64 bytes with the one payload (tag) byte at index 60. -/
def skipReplay : V2.Replay := V2.Replay.addInput ⟨f64bits240, 0, [], []⟩ 0 .skip

/-- A v2 replay on which pass-2 fusion makes the written stream parse
successfully at the wrong offsets: eight 4-byte jumps (the fifth with delta
158330, whose low three state bytes spell `EOM`) followed by two 1-byte
jumps.  Its 127-byte written stream is accepted by `read` after consuming
only 103 bytes, so the real footer (bytes 124..126) is never examined. -/
def miracleReplay : V2.Replay :=
  [3000, 6000, 9000, 12000, 170330, 173330, 176330, 179330, 179331, 179332].foldl
    (fun r f => r.addInput f (.player 1 true false)) ⟨f64bits240, 0, [], []⟩

/-- The v3 action atom holding one jump at frame `2 ^ 60`. -/
def c3Atom : V3.ActionAtom := V3.ActionAtom.addPlayerAction .new (2 ^ 60) .jump true false

/-- The v3 replay holding `c3Atom`. -/
def c3Replay : V3.Replay := ⟨V3.Metadata.new f64bits240 0 1, [.action c3Atom]⟩

/-- The v3 action atom of the `AtomVariant::write` framing example: one jump
at frame 100 added by `add_player_action`. -/
def c4Atom : V3.ActionAtom := V3.ActionAtom.addPlayerAction .new 100 .jump true false

/-- The payload bytes that `AtomVariant::write` emits for `c4Atom` after the
12-byte id+size header: the `u64` action count 1, a 2-byte Input section
header, and one 2-byte player state. -/
def c4Payload : List Nat := [1, 0, 0, 0, 0, 0, 0, 0, 0, 16, 69, 6]

/-- A wire Null atom: id 0, declared size 3, payload bytes `[1, 2, 3]`. -/
def nullAtomBytes : List Nat := [0, 0, 0, 0, 3, 0, 0, 0, 0, 0, 0, 0, 1, 2, 3]

/-- The bytes of `c3Replay.write` (v3 magic, meta size 64, 64-byte metadata
block, one Action atom with size field 0, footer `0xCC`). -/
def c3Bytes : List Nat :=
  [83, 76, 67, 51, 82, 80, 76, 89, 64, 0, 0, 0, 0, 0, 0, 0, 110, 64, 0, 0, 0, 0, 0, 0,
   0, 0, 1, 0, 0, 0, 1, 0, 0, 0, 0, 0, 0, 0, 0, 0, 0, 0, 0, 0, 0, 0, 0, 0, 0, 0, 0, 0,
   0, 0, 0, 0, 0, 0, 0, 0, 0, 0, 0, 0, 0, 0, 0, 0, 0, 0, 0, 0, 0, 0, 1, 0, 0, 0, 0, 0,
   0, 0, 0, 0, 0, 0, 1, 0, 0, 0, 0, 0, 0, 0, 0, 48, 5, 0, 0, 0, 0, 0, 0, 0, 204]

/-- The single Input section that the v3 planner produces for
`c4Atom.actions` (one jump of delta 100, so delta-size exponent 1 and a
single-input section). -/
def c4Sec : V3.Section :=
  ⟨.input, 1, [⟨100, 100, .jump, true, false⟩], false, 0, 0, .restart, 0, f64bits240, none⟩

/-! ### Replays mirroring the spec scenarios and the repository's tests -/

/-- Spec scenario 1: the empty v2 replay at 240 tps. -/
def specEmptyReplay : V2.Replay := ⟨f64bits240, 0, [], []⟩

/-- Spec scenario 2: a single v2 jump at frame 100. -/
def specSingleJumpReplay : V2.Replay :=
  V2.Replay.addInput ⟨f64bits240, 0, [], []⟩ 100 (.player 1 true false)

/-- The six player actions of `test_v3_basic_features`. -/
def testBasicAtom : V3.ActionAtom :=
  (((((V3.ActionAtom.addPlayerAction .new 100 .jump true false).addPlayerAction
    102 .jump false false).addPlayerAction 200 .left true true).addPlayerAction
    201 .left false true).addPlayerAction 300 .right true false).addPlayerAction
    301 .right false false

def testBasicReplay : V3.Replay := ⟨V3.Metadata.new f64bits240 12345 1, [.action testBasicAtom]⟩

/-- The specials of `test_v3_special_actions` (480.0 has bit pattern
`0x407E000000000000`). -/
def testSpecialAtom : V3.ActionAtom :=
  (((((V3.ActionAtom.addPlayerAction .new 50 .jump true false).addPlayerAction
    52 .jump false false).addDeathAction 100 .restart 99999).addTpsAction
    200 0x407E000000000000).addDeathAction 300 .restartFull 11111).addDeathAction
    400 .death 22222

def testSpecialReplay : V3.Replay :=
  ⟨V3.Metadata.new f64bits240 54321 2, [.action testSpecialAtom]⟩

/-- The swift pair of spec scenario 6: press and release at the same frame. -/
def testSwiftAtom : V3.ActionAtom :=
  (V3.ActionAtom.addPlayerAction .new 10 .jump true false).addPlayerAction 10 .jump false false

def testSwiftReplay : V3.Replay := ⟨V3.Metadata.new f64bits240 0 1, [.action testSwiftAtom]⟩

/-- One group of the run-length scenario of `test_v3_run_length_encoding`. -/
def addQuad (a : V3.ActionAtom) (i : Nat) : V3.ActionAtom :=
  ((((a.addPlayerAction (i * 20) .jump true false).addPlayerAction
    (i * 20 + 2) .jump false false).addPlayerAction
    (i * 20 + 10) .left true false).addPlayerAction (i * 20 + 12) .left false false)

/-- The forty alternating actions of `test_v3_run_length_encoding`. -/
def testRleAtom : V3.ActionAtom := (List.range 10).foldl addQuad .new

def testRleReplay : V3.Replay := ⟨V3.Metadata.new f64bits240 0 1, [.action testRleAtom]⟩

/-- The bytes of `testSwiftReplay.write`: one Action atom whose single
player state carries the Swift button. -/
def testSwiftBytes : List Nat :=
  [83, 76, 67, 51, 82, 80, 76, 89, 64, 0, 0, 0, 0, 0, 0, 0, 110, 64, 0, 0, 0, 0, 0, 0,
   0, 0, 1, 0, 0, 0, 1, 0, 0, 0, 0, 0, 0, 0, 0, 0, 0, 0, 0, 0, 0, 0, 0, 0, 0, 0, 0, 0,
   0, 0, 0, 0, 0, 0, 0, 0, 0, 0, 0, 0, 0, 0, 0, 0, 0, 0, 0, 0, 0, 0, 1, 0, 0, 0, 0, 0,
   0, 0, 0, 0, 0, 0, 2, 0, 0, 0, 0, 0, 0, 0, 0, 0, 161, 204]

/-! ### Definitions modelled from the specification's words -/

/-- Modelled from the claim (C6): the smallest `e ∈ {0,1,2,3}` such that
`delta < 2 ^ (offset + 8 * 2 ^ e)`, defaulting to 3 when none fits. -/
def claimDeltaSizeExp (offset delta : Nat) : Nat :=
  (((List.range 4).find? fun e => delta < 2 ^ (offset + 8 * 2 ^ e)).getD 3)

/-- Modelled from the amended claim (C6): the smallest `e ∈ {0,1,2,3}` such
that `delta < 2 ^ (offset + 8 * (2 ^ e - 1))` — that is, such that the
packed state word fits in `2 ^ e` bytes — defaulting to 3 when none fits. -/
def amendedDeltaSizeExp (offset delta : Nat) : Nat :=
  (((List.range 4).find? fun e => delta < 2 ^ (offset + 8 * (2 ^ e - 1))).getD 3)

/-- The swift-pair relation of claim C7 between an action and its successor:
two swift-marked Jump actions on the same `player2` at the same frame, the
first holding, the second non-holding with delta 0. -/
def swiftPairFst (a b : V3.Action) : Prop :=
  a.swift = true ∧ b.swift = true ∧ a.actionType = .jump ∧ b.actionType = .jump ∧
    a.holding = true ∧ b.holding = false ∧ b.delta = 0 ∧ a.frame = b.frame ∧
    a.player2 = b.player2

/-- Claim C7's swift symmetry: every swift-marked action in the list is one
half of a consecutive swift pair. -/
def SwiftSym (l : List V3.Action) : Prop :=
  ∀ i a, l.get? i = some a → a.swift = true →
    (∃ b, l.get? (i+1) = some b ∧ swiftPairFst a b) ∨
    (∃ j b, i = j + 1 ∧ l.get? j = some b ∧ swiftPairFst b a)

/-- Lists in which swift-marked actions occur exactly as adjacent swift
pairs; the invariant maintained by the v3 section decoder. -/
inductive Paired : List V3.Action → Prop
  | nil : Paired []
  | single {a : V3.Action} {l : List V3.Action} :
      a.swift = false → Paired l → Paired (a :: l)
  | pair {a b : V3.Action} {l : List V3.Action} :
      swiftPairFst a b → Paired l → Paired (a :: b :: l)

/-- The section-length invariant of claim C8. -/
def SecLenOk (s : V3.Section) : Prop :=
  (s.id = .input ∨ s.id = .rep) →
    s.playerInputs.length = 1 <<< s.countExp ∧ 1 ≤ s.playerInputs.length ∧
      s.playerInputs.length ≤ 2 ^ 15

/-- The invariant of the cluster-search state: a recorded candidate is a
power-of-two cluster of at most 64 fitting inside the section. -/
def ClInv (n idx : Nat) (best : V3.BestC) : Prop :=
  best.found = true → (∃ k, k ≤ 6 ∧ best.cluster = 2 ^ k) ∧ idx + best.cluster ≤ n

end Slc

namespace Slc

/-! ### Helper lemmas about byte lists -/

theorem readExact_append (n : Nat) (xs ys : List Nat) (h : xs.length = n) :
    readExact n (xs ++ ys) = some (xs, ys) := by
  subst h
  simp [readExact, List.take_left, List.drop_left]

theorem set_append_left {α : Type} (l1 l2 : List α) (p : Nat) (b : α) (h : p < l1.length) :
    (l1 ++ l2).set p b = l1.set p b ++ l2 := by
  induction l1 generalizing p with
  | nil => simp at h
  | cons x xs ih =>
    cases p with
    | zero => simp
    | succ q => simp only [List.cons_append, List.set_cons_succ]; rw [ih]; simpa using h

theorem set_append_right {α : Type} (l1 l2 : List α) (p : Nat) (b : α) (h : l1.length ≤ p) :
    (l1 ++ l2).set p b = l1 ++ l2.set (p - l1.length) b := by
  induction l1 generalizing p with
  | nil => simp
  | cons x xs ih =>
    cases p with
    | zero => simp at h
    | succ q =>
      simp only [List.cons_append, List.set_cons_succ, List.length_cons]
      rw [ih]
      · simp [Nat.succ_sub_succ]
      · simpa using h

theorem get?_set_self {α : Type} (l : List α) (k : Nat) (b : α) (h : k < l.length) :
    (l.set k b).get? k = some b := by
  induction l generalizing k with
  | nil => simp at h
  | cons x xs ih =>
    cases k with
    | zero => simp
    | succ q => simp only [List.set_cons_succ, List.get?_cons_succ]; exact ih q (by simpa using h)

theorem length_leBytes (n v : Nat) : (leBytes n v).length = n := by
  induction n generalizing v with
  | zero => rfl
  | succ m ih => simp [leBytes, ih]

theorem leBytes_lt (n v : Nat) : ∀ x ∈ leBytes n v, x < 256 := by
  induction n generalizing v with
  | zero => simp [leBytes]
  | succ m ih =>
    intro x hx
    simp only [leBytes, List.mem_cons] at hx
    rcases hx with h | h
    · omega
    · exact ih _ x h

theorem leDecode_leBytes (n v : Nat) (h : v < 2 ^ (8 * n)) : leDecode (leBytes n v) = v := by
  induction n generalizing v with
  | zero => simp [leBytes, leDecode] at h ⊢; omega
  | succ m ih =>
    have hd : v / 256 < 2 ^ (8 * m) := by
      have : 2 ^ (8 * (m + 1)) = 2 ^ (8 * m) * 256 := by ring
      omega
    simp only [leBytes, leDecode, ih _ hd]
    omega

theorem leDecode_inj (l1 l2 : List Nat) (h1 : ∀ x ∈ l1, x < 256) (h2 : ∀ x ∈ l2, x < 256)
    (hl : l1.length = l2.length) (hd : leDecode l1 = leDecode l2) : l1 = l2 := by
  induction l1 generalizing l2 with
  | nil => cases l2 with
    | nil => rfl
    | cons y ys => simp at hl
  | cons x xs ih =>
    cases l2 with
    | nil => simp at hl
    | cons y ys =>
      simp only [leDecode] at hd
      have hx : x < 256 := h1 x (by simp)
      have hy : y < 256 := h2 y (by simp)
      have hxy : x = y ∧ leDecode xs = leDecode ys := by omega
      rw [hxy.1, ih ys (fun z hz => h1 z (by simp [hz])) (fun z hz => h2 z (by simp [hz]))
        (by simpa using hl) hxy.2]

theorem leDecode_set_ne (n v k b : Nat) (hv : v < 2 ^ (8 * n)) (hk : k < n) (hb256 : b < 256)
    (hb : (leBytes n v).get? k ≠ some b) : leDecode ((leBytes n v).set k b) ≠ v := by
  intro heq
  have hlen : ((leBytes n v).set k b).length = (leBytes n v).length := by simp
  have hdig : ∀ x ∈ (leBytes n v).set k b, x < 256 := by
    intro x hx
    rcases List.mem_or_eq_of_mem_set hx with h | h
    · exact leBytes_lt n v x h
    · omega
  have heq2 : leDecode ((leBytes n v).set k b) = leDecode (leBytes n v) := by
    rw [heq, leDecode_leBytes n v hv]
  have := leDecode_inj _ _ hdig (leBytes_lt n v) hlen heq2
  have hg : ((leBytes n v).set k b).get? k = some b :=
    get?_set_self _ k b (by rw [length_leBytes]; exact hk)
  rw [this] at hg
  exact hb hg

end Slc

namespace Slc

/-! ### Swift-pair infrastructure (claim C7) -/

theorem paired_append_single {l : List V3.Action} {a : V3.Action}
    (hl : Paired l) (ha : a.swift = false) : Paired (l ++ [a]) := by
  induction hl with
  | nil => exact .single ha .nil
  | single hs _ ih => exact .single hs ih
  | pair hp _ ih => exact .pair hp ih

theorem paired_append_pair {l : List V3.Action} {a b : V3.Action}
    (hl : Paired l) (hab : swiftPairFst a b) : Paired (l ++ [a, b]) := by
  induction hl with
  | nil => exact .pair hab .nil
  | single hs _ ih => exact .single hs ih
  | pair hp _ ih => exact .pair hp ih

theorem paired_swiftSym {l : List V3.Action} (hl : Paired l) : SwiftSym l := by
  induction hl with
  | nil => intro i a hga; simp at hga
  | single hs _ ih =>
    intro i a hga hsw
    cases i with
    | zero =>
      simp only [List.get?_cons_zero, Option.some.injEq] at hga
      rw [← hga] at hsw
      simp [hs] at hsw
    | succ k =>
      simp only [List.get?_cons_succ] at hga
      rcases ih k a hga hsw with ⟨b, hb, hp⟩ | ⟨j, b, hj, hb, hp⟩
      · exact .inl ⟨b, by simpa using hb, hp⟩
      · exact .inr ⟨j + 1, b, by omega, by simpa using hb, hp⟩
  | @pair a b l hab _ ih =>
    intro i c hgc hsw
    cases i with
    | zero =>
      simp only [List.get?_cons_zero, Option.some.injEq] at hgc
      subst hgc
      exact .inl ⟨b, rfl, hab⟩
    | succ k =>
      cases k with
      | zero =>
        simp only [List.get?_cons_succ, List.get?_cons_zero, Option.some.injEq] at hgc
        subst hgc
        exact .inr ⟨0, a, rfl, rfl, hab⟩
      | succ k2 =>
        simp only [List.get?_cons_succ] at hgc
        rcases ih k2 c hgc hsw with ⟨d, hd, hp⟩ | ⟨j, d, hj, hd, hp⟩
        · exact .inl ⟨d, by simpa using hd, hp⟩
        · exact .inr ⟨j + 2, d, by omega, by simpa using hd, hp⟩

end Slc

namespace Slc

theorem paired_emitInput {actions : List V3.Action} {prev : Nat} {p : V3.PInput}
    (hl : Paired actions) (hpf : p.frame = (prev + p.delta) % 2 ^ 64) :
    Paired (V3.emitInput actions prev p) := by
  unfold V3.emitInput
  split
  · refine paired_append_pair hl ?_
    refine ⟨rfl, rfl, rfl, rfl, rfl, rfl, rfl, ?_, rfl⟩
    show (prev + p.delta) % 2 ^ 64 = (p.frame + 0) % 2 ^ 64
    rw [hpf]
    omega
  · exact paired_append_single hl rfl

theorem paired_emitRepeatInput {actions : List V3.Action} {prev : Nat} {p : V3.PInput}
    (hl : Paired actions) : Paired (V3.emitRepeatInput actions prev p) := by
  unfold V3.emitRepeatInput
  split
  · refine paired_append_pair hl ?_
    refine ⟨rfl, rfl, rfl, rfl, rfl, rfl, rfl, ?_, rfl⟩
    show (prev + p.delta) % 2 ^ 64 = ((prev + p.delta) % 2 ^ 64 + 0) % 2 ^ 64
    omega
  · exact paired_append_single hl rfl

theorem paired_inputSectionGo (byteSize : Nat) (k : Nat) :
    ∀ (s : List Nat) (actions : List V3.Action) (prev : Nat)
      (acts' : List V3.Action) (rest : List Nat),
      Paired actions →
      V3.inputSectionGo byteSize k s actions prev = .ok (acts', rest) → Paired acts' := by
  induction k with
  | zero =>
    intro s actions prev acts' rest hl h
    unfold V3.inputSectionGo at h
    cases h
    exact hl
  | succ m ih =>
    intro s actions prev acts' rest hl h
    unfold V3.inputSectionGo at h
    cases hre : readExact byteSize s with
    | none => rw [hre] at h; cases h
    | some pr =>
      rw [hre] at h
      obtain ⟨buf, rest1⟩ := pr
      exact ih _ _ _ _ _ (paired_emitInput hl rfl) h

theorem paired_emitClusterGo (inputs : List V3.PInput) :
    ∀ (actions : List V3.Action) (prev : Nat), Paired actions →
      Paired (V3.emitClusterGo inputs actions prev) := by
  induction inputs with
  | nil => intro actions prev hl; exact hl
  | cons p ps ih =>
    intro actions prev hl
    exact ih _ _ (paired_emitRepeatInput hl)

theorem paired_emitRepeats (r : Nat) :
    ∀ (inputs : List V3.PInput) (actions : List V3.Action), Paired actions →
      Paired (V3.emitRepeats r inputs actions) := by
  induction r with
  | zero => intro _ actions hl; exact hl
  | succ m ih =>
    intro inputs actions hl
    exact ih _ _ (paired_emitClusterGo inputs actions _ hl)

theorem paired_sectionRead {s : List Nat} {actions acts' : List V3.Action} {rest : List Nat}
    (hl : Paired actions) (h : V3.Section.read s actions = .ok (acts', rest)) :
    Paired acts' := by
  unfold V3.Section.read at h
  cases hre : readExact 2 s with
  | none => rw [hre] at h; cases h
  | some pr =>
    rw [hre] at h
    obtain ⟨hb, rest1⟩ := pr
    simp only [] at h
    split at h
    · exact paired_inputSectionGo _ _ _ _ _ _ _ hl h
    · split at h
      · cases hsc : V3.repeatScan (1 <<< ((leDecode hb >>> 12) &&& 3))
            (1 <<< ((leDecode hb >>> 8) &&& 15)) rest1 0 [] with
        | error e => rw [hsc] at h; cases h
        | ok pr2 =>
          rw [hsc] at h
          obtain ⟨inputs, rest2⟩ := pr2
          cases h
          exact paired_emitRepeats _ _ _ hl
      · split at h
        · cases hd : readExact (1 <<< ((leDecode hb >>> 8) &&& 3)) rest1 with
          | none => rw [hd] at h; cases h
          | some pr2 =>
            rw [hd] at h
            obtain ⟨db, rest2⟩ := pr2
            simp only [] at h
            split at h
            · cases ht : readExact 8 rest2 with
              | none => rw [ht] at h; cases h
              | some pr3 =>
                rw [ht] at h
                obtain ⟨tb, rest3⟩ := pr3
                cases h
                exact paired_append_single hl rfl
            · split at h
              · cases hsd : readExact 8 rest2 with
                | none => rw [hsd] at h; cases h
                | some pr3 =>
                  rw [hsd] at h
                  obtain ⟨sb, rest3⟩ := pr3
                  cases h
                  exact paired_append_single hl rfl
              · cases h
        · cases h

theorem paired_atomActionsGo (fuel : Nat) :
    ∀ (count : Nat) (s : List Nat) (actions acts' : List V3.Action) (rest : List Nat),
      Paired actions →
      V3.atomActionsGo fuel count s actions = .ok (acts', rest) → Paired acts' := by
  induction fuel with
  | zero =>
    intro count s actions acts' rest hl h
    unfold V3.atomActionsGo at h
    cases h
    exact hl
  | succ m ih =>
    intro count s actions acts' rest hl h
    unfold V3.atomActionsGo at h
    split at h
    · cases hsr : V3.Section.read s actions with
      | error e => rw [hsr] at h; cases h
      | ok pr =>
        rw [hsr] at h
        obtain ⟨actions2, rest2⟩ := pr
        exact ih _ _ _ _ _ (paired_sectionRead hl hsr) h
    · cases h
      exact hl

theorem paired_actionAtomRead {s : List Nat} {size : Nat} {atm : V3.ActionAtom}
    {rest : List Nat} (h : V3.ActionAtom.read s size = .ok (atm, rest)) :
    Paired atm.actions := by
  unfold V3.ActionAtom.read at h
  cases hre : readExact 8 s with
  | none => rw [hre] at h; cases h
  | some pr =>
    rw [hre] at h
    obtain ⟨cb, rest1⟩ := pr
    simp only [] at h
    cases hgo : V3.atomActionsGo (leDecode cb + 1) (leDecode cb) rest1 [] with
    | error e => rw [hgo] at h; cases h
    | ok pr2 =>
      rw [hgo] at h
      obtain ⟨actions, rest2⟩ := pr2
      cases h
      exact paired_atomActionsGo _ _ _ _ _ _ .nil hgo

end Slc

namespace Slc

/-! ### Power-of-two arithmetic (claim C8) -/

theorem log2Go_le {fuel m : Nat} (h1 : 1 ≤ m) (h2 : m < 2 ^ fuel) :
    2 ^ V3.log2Go fuel m ≤ m := by
  induction fuel generalizing m with
  | zero => simp at h2; omega
  | succ f ih =>
    unfold V3.log2Go
    split
    · have hrec := ih (m := m / 2) (by omega) (by rw [Nat.pow_succ] at h2; omega)
      rw [Nat.pow_succ]
      omega
    · simp; omega

theorem log2Go_pow {fuel k : Nat} (h : k < fuel) : V3.log2Go fuel (2 ^ k) = k := by
  induction fuel generalizing k with
  | zero => omega
  | succ f ih =>
    unfold V3.log2Go
    cases k with
    | zero => norm_num
    | succ j =>
      have h2 : 2 ≤ 2 ^ (j + 1) := by
        have := Nat.one_le_two_pow (n := j)
        rw [Nat.pow_succ]
        omega
      rw [if_pos h2]
      have : 2 ^ (j + 1) / 2 = 2 ^ j := by
        rw [Nat.pow_succ]
        omega
      rw [this, ih (by omega)]

theorem exponentOfTwo_pow {k : Nat} (h : k ≤ 15) : V3.exponentOfTwo (2 ^ k) = k := by
  unfold V3.exponentOfTwo
  have hlt : 2 ^ k < 4294967296 := by
    calc 2 ^ k ≤ 2 ^ 15 := Nat.pow_le_pow_right (by norm_num) h
    _ < 4294967296 := by norm_num
  have hmod : 2 ^ k % 4294967296 = 2 ^ k := Nat.mod_eq_of_lt hlt
  simp only [hmod]
  rw [if_neg (by positivity)]
  rw [log2Go_pow (by omega)]
  omega

theorem lpo2_spec {m : Nat} (h1 : 1 ≤ m) (h2 : m < 4294967296) :
    V3.largestPowerOfTwo m = 2 ^ min (V3.log2Go 32 m) 15 ∧
      1 ≤ V3.largestPowerOfTwo m ∧ V3.largestPowerOfTwo m ≤ 2 ^ 15 ∧
      V3.largestPowerOfTwo m ≤ m ∧ min (V3.log2Go 32 m) 15 ≤ 15 := by
  unfold V3.largestPowerOfTwo V3.exponentOfTwo
  rw [if_neg (by omega)]
  have hmod : m % 4294967296 = m := Nat.mod_eq_of_lt h2
  simp only [hmod]
  rw [if_neg (by omega)]
  rw [Nat.shiftLeft_eq, Nat.one_mul]
  refine ⟨rfl, Nat.one_le_two_pow, Nat.pow_le_pow_right (by norm_num) (by omega), ?_, by omega⟩
  calc 2 ^ min (V3.log2Go 32 m) 15 ≤ 2 ^ V3.log2Go 32 m :=
        Nat.pow_le_pow_right (by norm_num) (by omega)
  _ ≤ m := log2Go_le h1 (by norm_num; omega)

end Slc

namespace Slc

/-! ### Section-length invariants (claim C8) -/


theorem secLenOk_special {s : V3.Section} (h : s.id = .special) : SecLenOk s := by
  intro hid
  rcases hid with hid | hid <;> rw [h] at hid <;> exact absurd hid (by decide)

theorem specialOf_id {a : V3.Action} {s : V3.Section} (h : V3.Section.specialOf a = .ok s) :
    s.id = .special := by
  unfold V3.Section.specialOf at h
  cases hat : a.actionType <;> rw [hat] at h <;> cases h <;> rfl

theorem distributeGo_ok (fuel : Nat) :
    ∀ (i : Nat) (inputs : List V3.PInput) (ds : Nat) (secs : List V3.Section),
      inputs.length < 4294967296 →
      (∀ s ∈ secs, SecLenOk s) →
      ∀ s ∈ V3.distributeGo fuel i inputs ds secs, SecLenOk s := by
  induction fuel with
  | zero =>
    intro i inputs ds secs _ hsecs s hs
    unfold V3.distributeGo at hs
    exact hsecs s hs
  | succ f ih =>
    intro i inputs ds secs hin hsecs s hs
    unfold V3.distributeGo at hs
    split at hs
    case isTrue hlt =>
      refine ih _ _ _ _ hin ?_ s hs
      intro t ht
      rcases List.mem_append.mp ht with h | h
      · exact hsecs t h
      · simp only [List.mem_singleton] at h
        subst h
        intro _
        have h1 : 1 ≤ inputs.length - i := by omega
        have h2 : inputs.length - i < 4294967296 := by omega
        obtain ⟨heq, hge, hle, hlem, hcap⟩ := lpo2_spec h1 h2
        have hexp : V3.exponentOfTwo (V3.largestPowerOfTwo (inputs.length - i)) =
            min (V3.log2Go 32 (inputs.length - i)) 15 := by
          rw [heq]
          exact exponentOfTwo_pow hcap
        have hlen : ((inputs.drop i).take (V3.largestPowerOfTwo (inputs.length - i))).length
            = V3.largestPowerOfTwo (inputs.length - i) := by
          rw [List.length_take, List.length_drop]
          omega
        simp only [V3.mkInputSection]
        refine ⟨?_, ?_, ?_⟩
        · rw [hlen, hexp, Nat.shiftLeft_eq, Nat.one_mul, heq]
        · rw [hlen]; omega
        · rw [hlen]; omega
    case isFalse => exact hsecs s hs

theorem clusterLoop_inv (pis : List V3.PInput) (n idx : Nat) (fuel : Nat) :
    ∀ (cl : Nat) (best : V3.BestC), (∃ t, cl = 2 ^ t) →
      ClInv n idx best → ClInv n idx (V3.clusterLoop pis n idx fuel cl best) := by
  induction fuel with
  | zero =>
    intro cl best _ hbest
    unfold V3.clusterLoop
    exact hbest
  | succ f ih =>
    intro cl best hcl hbest
    obtain ⟨t, ht⟩ := hcl
    unfold V3.clusterLoop
    split
    case isTrue hcln =>
      split
      case isTrue => exact hbest
      case isFalse hlt =>
        split
        · exact ih _ _ ⟨t + 1, by rw [ht]; ring⟩ hbest
        · split
          · refine ih _ _ ⟨t + 1, by rw [ht]; ring⟩ ?_
            intro _
            have ht6 : t ≤ 6 := by
              by_contra hgt
              have hpow : 2 ^ 7 ≤ 2 ^ t := Nat.pow_le_pow_right (by norm_num) (by omega)
              have hc64 : cl ≤ 64 := hcln.1
              rw [ht] at hc64
              norm_num at hpow
              omega
            refine ⟨⟨t, ht6, ?_⟩, ?_⟩
            · show cl = 2 ^ t
              exact ht
            · show idx + cl ≤ n
              omega
          · exact ih _ _ ⟨t + 1, by rw [ht]; ring⟩ hbest
    case isFalse => exact hbest

theorem rleGo_ok (self : V3.Section) (fuel : Nat) :
    ∀ (idx : Nat) (secs : List V3.Section) (free : List V3.PInput),
      self.playerInputs.length < 4294967296 →
      free.length ≤ idx →
      free.length ≤ self.playerInputs.length →
      (∀ s ∈ secs, SecLenOk s) →
      ∀ s ∈ V3.rleGo self self.playerInputs.length fuel idx secs free, SecLenOk s := by
  induction fuel with
  | zero =>
    intro idx secs free hn _ hfn hsecs s hs
    unfold V3.rleGo at hs
    exact distributeGo_ok _ _ _ _ _ (by omega) hsecs s hs
  | succ f ih =>
    intro idx secs free hn hfi hfn hsecs s hs
    unfold V3.rleGo at hs
    split at hs
    case isTrue hlt =>
      split at hs
      case isTrue hfound =>
        have hinv := clusterLoop_inv self.playerInputs self.playerInputs.length idx 8 1
          ⟨false, 0, 0, 0⟩ ⟨0, rfl⟩ (fun h => nomatch h) hfound
        obtain ⟨⟨k, hk6, hkc⟩, hcn⟩ := hinv
        refine ih _ _ _ hn (by simp) (by simp) ?_ s hs
        intro u hu
        rcases List.mem_append.mp hu with h | h
        · exact distributeGo_ok _ _ _ _ _ (by omega) hsecs u h
        · simp only [List.mem_singleton] at h
          subst h
          intro _
          simp only [V3.mkRepeatSection]
          have hlen : ((self.playerInputs.drop idx).take
              (V3.clusterLoop self.playerInputs self.playerInputs.length idx 8 1
                ⟨false, 0, 0, 0⟩).cluster).length =
              (V3.clusterLoop self.playerInputs self.playerInputs.length idx 8 1
                ⟨false, 0, 0, 0⟩).cluster := by
            rw [List.length_take, List.length_drop]
            omega
          refine ⟨?_, ?_, ?_⟩
          · rw [hlen, hkc, exponentOfTwo_pow (by omega), Nat.shiftLeft_eq, Nat.one_mul]
          · rw [hlen, hkc]
            exact Nat.one_le_two_pow
          · rw [hlen, hkc]
            exact Nat.pow_le_pow_right (by norm_num) (by omega)
      case isFalse =>
        refine ih _ _ _ hn ?_ ?_ hsecs s hs
        · rw [List.length_append, List.length_take, List.length_drop]
          omega
        · rw [List.length_append, List.length_take, List.length_drop]
          omega
    case isFalse => exact distributeGo_ok _ _ _ _ _ (by omega) hsecs s hs

theorem runLengthEncode_ok (s : V3.Section) (h : s.playerInputs.length < 4294967296) :
    ∀ t ∈ s.runLengthEncode, SecLenOk t := by
  unfold V3.Section.runLengthEncode
  exact rleGo_ok s _ 0 [] [] h (by simp) (by simp) (by simp)

theorem markSwift_length (actions : List V3.Action) (j : Nat) :
    (V3.markSwift actions j).length = actions.length := by
  unfold V3.markSwift
  cases actions.get? j <;> simp

theorem gatherGo_length (fuel : Nat) :
    ∀ (actions : List V3.Action) (i c pc sw psw : Nat),
      (V3.gatherGo fuel actions i c pc sw psw).1.length = actions.length := by
  induction fuel with
  | zero => intro actions i c pc sw psw; rfl
  | succ f ih =>
    intro actions i c pc sw psw
    unfold V3.gatherGo
    split
    · split
      · rw [ih, markSwift_length, markSwift_length]
      · exact ih _ _ _ _ _ _
    · rfl

theorem playerFromRange_le (actions : List V3.Action) (a b : Nat) :
    (V3.Section.playerFromRange actions a b).playerInputs.length ≤ actions.length := by
  unfold V3.Section.playerFromRange
  simp only [List.length_map]
  have h1 := List.length_filter_le (fun x : V3.Action => x.holding || !x.swift)
    ((actions.drop a).take (b - a))
  have h2 : ((actions.drop a).take (b - a)).length = min (b - a) (actions.drop a).length :=
    List.length_take _ _
  have h3 : (actions.drop a).length = actions.length - a := List.length_drop _ _
  omega

theorem prepareGo_ok (fuel : Nat) :
    ∀ (actions : List V3.Action) (i : Nat) (secs secs' : List V3.Section),
      actions.length < 4294967296 →
      (∀ s ∈ secs, SecLenOk s) →
      V3.prepareGo fuel actions i secs = .ok secs' →
      ∀ s ∈ secs', SecLenOk s := by
  induction fuel with
  | zero =>
    intro actions i secs secs' _ hsecs h
    unfold V3.prepareGo at h
    cases h
    exact hsecs
  | succ f ih =>
    intro actions i secs secs' ha hsecs h
    unfold V3.prepareGo at h
    cases hg : actions.get? i with
    | none =>
      rw [hg] at h
      cases h
      exact hsecs
    | some a =>
      rw [hg] at h
      simp only [] at h
      by_cases hp : a.isPlayer
      case neg =>
        rw [if_pos (by simp [hp])] at h
        cases hsp : V3.Section.specialOf a with
        | error e => rw [hsp] at h; cases h
        | ok sec =>
          rw [hsp] at h
          refine ih _ _ _ _ ha ?_ h
          intro t ht
          rcases List.mem_append.mp ht with h2 | h2
          · exact hsecs t h2
          · simp only [List.mem_singleton] at h2
            subst h2
            exact secLenOk_special (specialOf_id hsp)
      case pos =>
        rw [if_neg (by simp [hp])] at h
        refine ih _ _ _ _ (by rw [gatherGo_length]; exact ha) ?_ h
        intro t ht
        rcases List.mem_append.mp ht with h2 | h2
        · exact hsecs t h2
        · refine runLengthEncode_ok _ ?_ t h2
          calc (V3.Section.playerFromRange (V3.gatherGo actions.length actions i 1 1 0 0).1 i
              (i + V3.largestPowerOfTwo (V3.gatherGo actions.length actions i 1 1 0 0).2.2.2.1 +
                (V3.gatherGo actions.length actions i 1 1 0 0).2.2.2.2.2)).playerInputs.length
              ≤ (V3.gatherGo actions.length actions i 1 1 0 0).1.length :=
            playerFromRange_le _ _ _
          _ = actions.length := gatherGo_length _ _ _ _ _ _ _
          _ < 4294967296 := ha

end Slc

namespace Slc

/-! ### Alteration detection (claim C9) -/

theorem v2_write_decomp (r : V2.Replay) :
    V2.Replay.write r = V2.headerMagic ++ (leBytes 8 r.tps ++ (leBytes 8 r.metaSize ++
      (r.meta ++ (leBytes 8 r.inputs.length ++
        (leBytes 8 ((V2.plannedBlobs r.inputs).1.length - (V2.plannedBlobs r.inputs).2) ++
          ((V2.plannedBlobs r.inputs).1.flatMap V2.Blob.entryBytes ++
            ((V2.plannedBlobs r.inputs).1.flatMap (fun bb => bb.writeInputs r.inputs) ++
              V2.footerMagic))))))) := by
  unfold V2.Replay.write
  simp [List.append_assoc]

theorem v2_read_header_shape (m : Nat) (hdr t : List Nat) (hlen : hdr.length = 4)
    (hne : hdr ≠ V2.headerMagic) :
    V2.Replay.read m (hdr ++ t) = .error .headerMismatch := by
  unfold V2.Replay.read
  rw [readExact_append 4 hdr t hlen]
  simp [hne]

theorem v2_read_meta_size_shape (m : Nat) (tpsB msB t : List Nat) (h1 : tpsB.length = 8)
    (h2 : msB.length = 8) (hne : leDecode msB ≠ m) :
    V2.Replay.read m (V2.headerMagic ++ (tpsB ++ (msB ++ t))) = .error .metaSizeMismatch := by
  unfold V2.Replay.read
  rw [readExact_append 4 V2.headerMagic _ rfl]
  simp [readExact_append 8 tpsB (msB ++ t) h1, readExact_append 8 msB t h2, hne]

theorem v2_alter_header (r : V2.Replay) (m p b : Nat) (hp : p < 4)
    (hb : (V2.Replay.write r).get? p ≠ some b) :
    V2.Replay.read m (alter p b (V2.Replay.write r)) = .error .headerMismatch := by
  rw [v2_write_decomp] at hb ⊢
  have hmlen : V2.headerMagic.length = 4 := rfl
  rw [alter, set_append_left _ _ _ _ (by omega)]
  have hbm : V2.headerMagic.get? p ≠ some b := by
    rw [List.get?_append (by omega)] at hb
    exact hb
  have hne : V2.headerMagic.set p b ≠ V2.headerMagic := by
    intro he
    have hg := get?_set_self V2.headerMagic p b (by omega)
    rw [he] at hg
    exact hbm hg
  exact v2_read_header_shape m _ _ (by simp [hmlen]) hne

theorem v2_alter_meta_size (r : V2.Replay) (p b : Nat) (hp1 : 12 ≤ p) (hp2 : p < 20)
    (hb256 : b < 256) (hms : r.metaSize < 2 ^ 64)
    (hb : (V2.Replay.write r).get? p ≠ some b) :
    V2.Replay.read r.metaSize (alter p b (V2.Replay.write r)) = .error .metaSizeMismatch := by
  rw [v2_write_decomp] at hb ⊢
  have hmlen : V2.headerMagic.length = 4 := rfl
  rw [alter, set_append_right _ _ _ _ (by omega),
    set_append_right _ _ _ _ (by simp [length_leBytes]; omega),
    set_append_left _ _ _ _ (by simp [length_leBytes]; omega)]
  simp only [hmlen, length_leBytes]
  have hq : (leBytes 8 r.metaSize).get? (p - 4 - 8) ≠ some b := by
    rw [List.get?_append_right (by omega),
      List.get?_append_right (by simp [length_leBytes]; omega),
      List.get?_append (by simp [length_leBytes]; omega)] at hb
    simpa [length_leBytes, hmlen] using hb
  have hdec : leDecode ((leBytes 8 r.metaSize).set (p - 4 - 8) b) ≠ r.metaSize := by
    refine leDecode_set_ne 8 r.metaSize _ b (by norm_num; exact hms) (by omega) hb256 hq
  exact v2_read_meta_size_shape r.metaSize _ _ _ (length_leBytes 8 r.tps)
    (by simp [length_leBytes]) hdec

theorem v3_write_decomp (r : V3.Replay) (bytes : List Nat) (hw : V3.Replay.write r = .ok bytes) :
    ∃ ab, bytes = V3.v3Magic ++ ([64, 0] ++ (r.metadata.writeBytes ++ (ab ++ [0xCC]))) := by
  unfold V3.Replay.write at hw
  cases hab : V3.writeAllAtoms r.atoms with
  | error e => rw [hab] at hw; cases hw
  | ok ab =>
    rw [hab] at hw
    refine ⟨ab, ?_⟩
    have heq : V3.v3Magic ++ [64, 0] ++ V3.Metadata.writeBytes r.metadata ++ ab ++ [0xCC]
        = bytes := by
      injection hw
    rw [← heq]
    simp [List.append_assoc]

theorem v3_read_header_shape (hdr t : List Nat) (hlen : hdr.length = 8)
    (hne : hdr ≠ V3.v3Magic) :
    V3.Replay.read (hdr ++ t) = .error .invalidHeader := by
  unfold V3.Replay.read
  rw [readExact_append 8 hdr t hlen]
  simp [hne]

theorem v3_read_meta_size_shape (msB t : List Nat) (h2 : msB.length = 2)
    (hne : leDecode msB ≠ 64) :
    V3.Replay.read (V3.v3Magic ++ (msB ++ t)) = .error .invalidMetadataSize := by
  unfold V3.Replay.read
  rw [readExact_append 8 V3.v3Magic _ rfl]
  simp [readExact_append 2 msB t h2, hne]

theorem v3_alter_header (r : V3.Replay) (bytes : List Nat) (p b : Nat)
    (hw : V3.Replay.write r = .ok bytes) (hp : p < 8) (hb : bytes.get? p ≠ some b) :
    V3.Replay.read (alter p b bytes) = .error .invalidHeader := by
  obtain ⟨ab, hbytes⟩ := v3_write_decomp r bytes hw
  subst hbytes
  have hmlen : V3.v3Magic.length = 8 := rfl
  rw [alter, set_append_left _ _ _ _ (by omega)]
  have hbm : V3.v3Magic.get? p ≠ some b := by
    rw [List.get?_append (by omega)] at hb
    exact hb
  have hne : V3.v3Magic.set p b ≠ V3.v3Magic := by
    intro he
    have hg := get?_set_self V3.v3Magic p b (by omega)
    rw [he] at hg
    exact hbm hg
  exact v3_read_header_shape _ _ (by simp [hmlen]) hne

theorem v3_alter_meta_size (r : V3.Replay) (bytes : List Nat) (p b : Nat)
    (hw : V3.Replay.write r = .ok bytes) (hp1 : 8 ≤ p) (hp2 : p < 10)
    (hb : bytes.get? p ≠ some b) :
    V3.Replay.read (alter p b bytes) = .error .invalidMetadataSize := by
  obtain ⟨ab, hbytes⟩ := v3_write_decomp r bytes hw
  subst hbytes
  have hmlen : V3.v3Magic.length = 8 := rfl
  rw [alter, set_append_right _ _ _ _ (by omega),
    set_append_left _ _ _ _ (by simp; omega)]
  have hq : ([64, 0] : List Nat).get? (p - V3.v3Magic.length) ≠ some b := by
    rw [List.get?_append_right (by omega)] at hb
    rw [List.get?_append (by simp [hmlen]; omega)] at hb
    exact hb
  have hor : p - V3.v3Magic.length = 0 ∨ p - V3.v3Magic.length = 1 := by
    rw [hmlen]; omega
  have hdec : leDecode (([64, 0] : List Nat).set (p - V3.v3Magic.length) b) ≠ 64 := by
    rcases hor with h | h
    · rw [h] at hq ⊢
      simp only [List.set]
      simp only [List.get?] at hq
      simp [leDecode]
      intro he
      exact hq (by rw [he])
    · rw [h] at hq ⊢
      simp only [List.set]
      simp only [List.get?] at hq
      simp [leDecode]
      intro he
      have : b = 0 := by omega
      exact hq (by rw [this])
  exact v3_read_meta_size_shape _ _ (by simp) hdec

end Slc

namespace Slc

/-! ### Remaining helper lemmas -/

/-- The amended C6 formula agrees with an explicit threshold chain. -/
theorem amendedDeltaSizeExp_spec (off delta : Nat) :
    amendedDeltaSizeExp off delta =
      if delta < 2 ^ off then 0
      else if delta < 2 ^ (off + 8) then 1
      else if delta < 2 ^ (off + 24) then 2 else 3 := by
  have hr : List.range 4 = [0, 1, 2, 3] := by decide
  unfold amendedDeltaSizeExp
  rw [hr]
  by_cases h1 : delta < 2 ^ off
  · simp [List.find?, h1, show 8 * (2 ^ 0 - 1) = 0 from by norm_num]
  · by_cases h2 : delta < 2 ^ (off + 8)
    · simp [List.find?, h1, h2, show 8 * (2 ^ 0 - 1) = 0 from by norm_num,
        show 8 * (2 ^ 1 - 1) = 8 from by norm_num]
    · by_cases h3 : delta < 2 ^ (off + 24)
      · simp [List.find?, h1, h2, h3, show 8 * (2 ^ 0 - 1) = 0 from by norm_num,
          show 8 * (2 ^ 1 - 1) = 8 from by norm_num,
          show 8 * (2 ^ 2 - 1) = 24 from by norm_num]
      · by_cases h4 : delta < 2 ^ (off + 56)
        · simp [List.find?, h1, h2, h3, h4, show 8 * (2 ^ 0 - 1) = 0 from by norm_num,
            show 8 * (2 ^ 1 - 1) = 8 from by norm_num,
            show 8 * (2 ^ 2 - 1) = 24 from by norm_num,
            show 8 * (2 ^ 3 - 1) = 56 from by norm_num]
        · simp [List.find?, h1, h2, h3, h4, show 8 * (2 ^ 0 - 1) = 0 from by norm_num,
            show 8 * (2 ^ 1 - 1) = 8 from by norm_num,
            show 8 * (2 ^ 2 - 1) = 24 from by norm_num,
            show 8 * (2 ^ 3 - 1) = 56 from by norm_num]

end Slc

namespace Slc

set_option maxRecDepth 1000000

/-! ### Supporting evidence: the embedding reproduces the specification's
concrete scenarios and the repository's own test vectors -/

/-- Spec scenario 1: the empty v2 replay writes exactly the spec's 39 bytes
and reads back unchanged. -/
theorem t_spec_scenario_1 :
    V2.Replay.write specEmptyReplay =
      [0x53, 0x49, 0x4C, 0x4C, 0, 0, 0, 0, 0, 0, 0x6E, 0x40, 0, 0, 0, 0, 0, 0, 0, 0,
       0, 0, 0, 0, 0, 0, 0, 0, 0, 0, 0, 0, 0, 0, 0, 0, 0x45, 0x4F, 0x4D] ∧
    V2.Replay.read 0 (V2.Replay.write specEmptyReplay) = .ok specEmptyReplay := by
  decide

/-- Spec scenario 2: the single jump has state word 3205, one blob
`{byte_size 2, start 0, length 1}`, and roundtrips. -/
theorem t_spec_scenario_2 :
    (specSingleJumpReplay.inputs.map V2.Input.toState = [3205]) ∧
    V2.plannedBlobs specSingleJumpReplay.inputs = ([⟨2, 0, 1⟩], 0) ∧
    V2.Replay.read 0 (V2.Replay.write specSingleJumpReplay) = .ok specSingleJumpReplay := by
  decide

/-- The six-action replay of `test_v3_basic_features` roundtrips exactly. -/
theorem t_v3_basic_roundtrip :
    (V3.Replay.write testBasicReplay).map V3.Replay.read =
      .ok (.ok ⟨testBasicReplay.metadata, [.action ⟨testBasicAtom.actions, 0⟩]⟩) := by
  decide

/-- The specials of `test_v3_special_actions` roundtrip with their seed and
tps payloads intact. -/
theorem t_v3_specials_roundtrip :
    (V3.Replay.write testSpecialReplay).map V3.Replay.read =
      .ok (.ok ⟨testSpecialReplay.metadata, [.action ⟨testSpecialAtom.actions, 0⟩]⟩) := by
  decide

/-- Spec scenario 6: the swift pair is re-expanded on read into the same two
frames with opposite holds (and the planner-set swift flags). -/
theorem t_v3_swift_pair_roundtrip :
    (V3.Replay.write testSwiftReplay).map V3.Replay.read =
      .ok (.ok ⟨testSwiftReplay.metadata,
        [.action ⟨[{ V3.Action.player 0 10 .jump true false with swift := true },
                   { V3.Action.player 10 0 .jump false false with swift := true }], 0⟩]⟩) := by
  decide

/-- The forty-action run-length scenario roundtrips, and re-writing the
decoded replay reproduces the original bytes (`test_v3_run_length_encoding`
and invariant I4). -/
theorem t_v3_rle_roundtrip_idempotent :
    (V3.Replay.write testRleReplay).map V3.Replay.read =
      .ok (.ok ⟨testRleReplay.metadata, [.action ⟨testRleAtom.actions, 0⟩]⟩) ∧
    V3.Replay.write ⟨testRleReplay.metadata, [.action ⟨testRleAtom.actions, 0⟩]⟩ =
      V3.Replay.write testRleReplay := by
  decide

end Slc

namespace Slc

theorem paired_atomVariantRead {s rest : List Nat} {a : V3.ActionAtom}
    (h : V3.AtomVariant.read s = .ok (.action a, rest)) : Paired a.actions := by
  unfold V3.AtomVariant.read at h
  cases hre : readExact 4 s with
  | none => rw [hre] at h; cases h
  | some pr =>
    rw [hre] at h
    obtain ⟨ib, r1⟩ := pr
    simp only [] at h
    split at h
    · cases hsz : readExact 8 r1 with
      | none => rw [hsz] at h; cases h
      | some pr2 =>
        rw [hsz] at h
        obtain ⟨sb, r2⟩ := pr2
        simp only [] at h
        cases hpl : readExact (leDecode sb) r2 with
        | none => rw [hpl] at h; cases h
        | some pr3 =>
          rw [hpl] at h
          obtain ⟨pl, r3⟩ := pr3
          cases h
    · split at h
      · cases hsz : readExact 8 r1 with
        | none => rw [hsz] at h; cases h
        | some pr2 =>
          rw [hsz] at h
          obtain ⟨sb, r2⟩ := pr2
          simp only [] at h
          cases hrd : V3.ActionAtom.read r2 (leDecode sb) with
          | error e => rw [hrd] at h; cases h
          | ok pr3 =>
            rw [hrd] at h
            obtain ⟨a2, r3⟩ := pr3
            cases h
            exact paired_actionAtomRead hrd
      · cases h

theorem paired_readAllAtoms (fuel : Nat) :
    ∀ (s : List Nat) (acc atoms : List V3.AtomVariant) (rest : List Nat),
      (∀ a : V3.ActionAtom, V3.AtomVariant.action a ∈ acc → Paired a.actions) →
      V3.readAllAtoms fuel s acc = .ok (atoms, rest) →
      ∀ a : V3.ActionAtom, V3.AtomVariant.action a ∈ atoms → Paired a.actions := by
  induction fuel with
  | zero =>
    intro s acc atoms rest hacc h
    unfold V3.readAllAtoms at h
    cases h
    exact hacc
  | succ f ih =>
    intro s acc atoms rest hacc h
    unfold V3.readAllAtoms at h
    split at h
    · cases h
      exact hacc
    · cases hav : V3.AtomVariant.read s with
      | error e => rw [hav] at h; cases h
      | ok pr =>
        rw [hav] at h
        obtain ⟨av, r1⟩ := pr
        refine ih _ _ _ _ ?_ h
        intro a ha
        rcases List.mem_append.mp ha with h2 | h2
        · exact hacc a h2
        · simp only [List.mem_singleton] at h2
          cases av with
          | null n => cases h2
          | action a2 =>
            cases h2
            exact paired_atomVariantRead hav

theorem paired_replayRead {s : List Nat} {r : V3.Replay} (h : V3.Replay.read s = .ok r) :
    ∀ a : V3.ActionAtom, V3.AtomVariant.action a ∈ r.atoms → Paired a.actions := by
  unfold V3.Replay.read at h
  cases h1 : readExact 8 s with
  | none => rw [h1] at h; cases h
  | some pr =>
    rw [h1] at h
    obtain ⟨hdr, s1⟩ := pr
    simp only [] at h
    split at h
    · cases h
    · cases h2 : readExact 2 s1 with
      | none => rw [h2] at h; cases h
      | some pr2 =>
        rw [h2] at h
        obtain ⟨msb, s2⟩ := pr2
        simp only [] at h
        split at h
        · cases h
        · cases h3 : V3.Metadata.read s2 with
          | error e => rw [h3] at h; cases h
          | ok pr3 =>
            rw [h3] at h
            obtain ⟨md, s3⟩ := pr3
            simp only [] at h
            cases h4 : V3.readAllAtoms s3.length s3 [] with
            | error e => rw [h4] at h; cases h
            | ok pr4 =>
              rw [h4] at h
              obtain ⟨atoms, s4⟩ := pr4
              simp only [] at h
              cases h5 : readExact 1 s4 with
              | none => rw [h5] at h; cases h
              | some pr5 =>
                rw [h5] at h
                obtain ⟨fb, s5⟩ := pr5
                simp only [] at h
                split at h
                · cases h
                · cases h
                  exact paired_readAllAtoms _ _ _ _ _ (by intro a ha; cases ha) h4

end Slc

namespace Slc

set_option maxRecDepth 100000

/-! ### The claims -/

/-- C1 (code bug): the v2 write/read pair is not a roundtrip.  On the ten
jumps with deltas 1×9 and 200000 (spec scenario 3), pass-2 fusion empties
the second blob; the writer writes the blob-count field excluding it but
still writes both 24-byte index entries, so its own reader misparses the
stream and returns `FooterMismatchError` instead of the replay. -/
theorem c1_v2_fusion_roundtrip_fails :
    fusionReplay.inputs.map V2.Input.frame = [1, 2, 3, 4, 5, 6, 7, 8, 9, 200009] ∧
    V2.Replay.read 0 (V2.Replay.write fusionReplay) = .error .footerMismatch := by
  decide

/-- C2 (code bug): after fusion the planner holds the blobs `{4,0,10}` and
the emptied `{4,9,0}`; the written blob-count field is `2 - 1 = 1`, yet the
writer emits an index entry for every blob — 48 bytes, i.e. two 24-byte
entries, one of them with length 0 — contradicting the claim that exactly
blob-count entries are written, each with positive length. -/
theorem c2_v2_blob_index_includes_empties :
    (V2.plannedBlobs fusionReplay.inputs).1 = [⟨4, 0, 10⟩, ⟨4, 9, 0⟩] ∧
    (V2.plannedBlobs fusionReplay.inputs).1.length - (V2.plannedBlobs fusionReplay.inputs).2
      = 1 ∧
    ((V2.plannedBlobs fusionReplay.inputs).1.flatMap V2.Blob.entryBytes).length = 48 := by
  decide

/-- C3 (code bug): the v3 roundtrip loses large deltas.  A single player
action at frame `2 ^ 60` (delta `2 ^ 60`) is encoded as the 8-byte state
`delta << 4`, whose top four bits wrap in `u64`; reading the written replay
yields an action at frame 0. -/
theorem c3_v3_large_delta_roundtrip_fails :
    c3Atom.actions.map V3.Action.frame = [2 ^ 60] ∧
    (V3.Replay.write c3Replay).map V3.Replay.read =
      .ok (.ok ⟨c3Replay.metadata,
        [.action ⟨[V3.Action.player 0 0 .jump true false], 0⟩]⟩) := by
  decide

/-- C4 (code bug): atom framing is violated by every locally built Action
atom.  `ActionAtom::new` stores `size = 0` and the `add_*` methods never
update it, so `AtomVariant::write` emits a `u64` size field of 0 while 12
payload bytes (count plus one section) follow the 12-byte header. -/
theorem c4_action_atom_size_field_zero :
    (V3.AtomVariant.action c4Atom).writeBytes = .ok (leBytes 4 1 ++ leBytes 8 0 ++ c4Payload) ∧
    (V3.AtomVariant.action c4Atom).sizeVal = 0 ∧
    c4Payload.length = 12 := by
  decide

/-- C5 (code bug): a Null atom's payload is not preserved.  Reading the
15-byte atom `[id 0 | size 3 | 1 2 3]` keeps only the size; writing the
result emits the 12-byte header declaring size 3 with no payload bytes at
all, so the original bytes are not reproduced. -/
theorem c5_null_atom_payload_dropped :
    V3.AtomVariant.read nullAtomBytes = .ok (.null ⟨3⟩, []) ∧
    (V3.AtomVariant.null ⟨3⟩).writeBytes = .ok [0, 0, 0, 0, 3, 0, 0, 0, 0, 0, 0, 0] ∧
    (V3.AtomVariant.null ⟨3⟩).writeBytes ≠ .ok nullAtomBytes := by
  decide

/-- C6 (counterexample): for a player action with delta 16 the code's
`minimum_size` is 1, but the claim's formula — the smallest `e` with
`delta < 2 ^ (offset + 8 * 2 ^ e)`, `offset = 4` — gives 0. -/
theorem c6_claim_formula_counterexample :
    (V3.Action.player 0 16 .jump true false).minimumSize = 1 ∧
    (V3.Action.player 0 16 .jump true false).isPlayer = true ∧
    claimDeltaSizeExp 4 (V3.Action.player 0 16 .jump true false).delta = 0 := by
  decide

/-- C6 (amended): for every action, the delta size exponent computed by
`minimum_size` is the smallest `e ∈ {0,1,2,3}` such that
`delta < 2 ^ (offset + 8 * (2 ^ e - 1))` — with `offset = 4` for player and
8 for special actions — or 3 when no such `e` exists. -/
theorem c6_minimum_size_amended (a : V3.Action) :
    a.minimumSize = amendedDeltaSizeExp (if a.isPlayer then 4 else 8) a.delta := by
  rw [amendedDeltaSizeExp_spec]
  rfl

/-- C7: swift symmetry.  Every action list decoded from a v3 stream —
whether through `Replay::read` (any Action atom of the decoded replay) or
directly through `ActionAtom::read` — satisfies `SwiftSym`: each
swift-marked action is one half of a consecutive pair of swift Jump actions
on the same `player2` at the same frame, the first holding, the second
non-holding with delta 0. -/
theorem c7_swift_symmetry :
    (∀ (s : List Nat) (r : V3.Replay), V3.Replay.read s = .ok r →
      ∀ a : V3.ActionAtom, V3.AtomVariant.action a ∈ r.atoms → SwiftSym a.actions) ∧
    (∀ (s : List Nat) (size : Nat) (atm : V3.ActionAtom) (rest : List Nat),
      V3.ActionAtom.read s size = .ok (atm, rest) → SwiftSym atm.actions) :=
  ⟨fun _ _ h a ha => paired_swiftSym (paired_replayRead h a ha),
   fun _ _ _ _ h => paired_swiftSym (paired_actionAtomRead h)⟩

/-- C7 witness: reading the written swift-pair replay, and the 11-byte
action atom payload holding one Swift player state, both yield expanded
hold/release pairs satisfying `SwiftSym`. -/
theorem c7_swift_symmetry_witness :
    SwiftSym [⟨10, .jump, true, false, 0, f64bits240, true, 10⟩,
              ⟨10, .jump, false, false, 0, f64bits240, true, 0⟩] ∧
    SwiftSym [⟨3, .jump, true, false, 0, f64bits240, true, 3⟩,
              ⟨3, .jump, false, false, 0, f64bits240, true, 0⟩] :=
  ⟨c7_swift_symmetry.1 testSwiftBytes
    ⟨V3.Metadata.new f64bits240 0 1,
      [.action ⟨[⟨10, .jump, true, false, 0, f64bits240, true, 10⟩,
                 ⟨10, .jump, false, false, 0, f64bits240, true, 0⟩], 0⟩]⟩ (by decide)
    ⟨[⟨10, .jump, true, false, 0, f64bits240, true, 10⟩,
      ⟨10, .jump, false, false, 0, f64bits240, true, 0⟩], 0⟩ (by decide),
   c7_swift_symmetry.2 [2, 0, 0, 0, 0, 0, 0, 0, 0, 0, 49] 0
    ⟨[⟨3, .jump, true, false, 0, f64bits240, true, 3⟩,
      ⟨3, .jump, false, false, 0, f64bits240, true, 0⟩], 0⟩ [] (by decide)⟩

/-- C8: every Input or Repeat section produced by the v3 planner carries a
`player_inputs` list whose length is exactly `1 << count_exp`, a power of
two between 1 and `2 ^ 15` inclusive (for any action list small enough for
the `usize → u32` casts in the planner to be lossless). -/
theorem c8_section_lengths (actions : List V3.Action) (h : actions.length < 4294967296)
    (secs : List V3.Section) (hp : V3.prepareSections actions = .ok secs)
    (s : V3.Section) (hs : s ∈ secs) (hid : s.id = .input ∨ s.id = .rep) :
    s.playerInputs.length = 1 <<< s.countExp ∧ 1 ≤ s.playerInputs.length ∧
      s.playerInputs.length ≤ 2 ^ 15 := by
  unfold V3.prepareSections at hp
  exact prepareGo_ok (actions.length + 1) actions 0 [] secs h (by simp) hp s hs hid

/-- C8 witness: the planner output for the single-jump atom is one Input
section of length `1 = 1 << 0`. -/
theorem c8_section_lengths_witness :
    c4Sec.playerInputs.length = 1 <<< c4Sec.countExp ∧ 1 ≤ c4Sec.playerInputs.length ∧
      c4Sec.playerInputs.length ≤ 2 ^ 15 :=
  c8_section_lengths c4Atom.actions (by decide) [c4Sec] (by decide) c4Sec (by decide)
    (by decide)

/-- C9 (counterexample): altering a tag byte or a footer byte need not
produce any error.  Altering the one payload (state/tag) byte of a written
single-Skip v2 replay makes `read` succeed with a different input; and on
`miracleReplay` — where fusion makes the reader consume the stream at wrong
offsets yet stumble onto the bytes `EOM` inside the payload — `read`
succeeds and never examines the real footer, so altering the footer byte at
position 124 of the 127-byte stream is not detected either. -/
theorem c9_tag_and_footer_counterexample :
    exceptOk (V2.Replay.read 0 (alter 60 4 (V2.Replay.write skipReplay))) = true ∧
    (V2.Replay.write skipReplay).length = 64 ∧
    exceptOk (V2.Replay.read 0 (alter 124 0 (V2.Replay.write miracleReplay))) = true ∧
    (V2.Replay.write miracleReplay).length = 127 := by
  decide

/-- C9 (amended): single-byte alterations within the header magic or the
meta-size field of a written replay are detected with the specific error
kind: v2 `HeaderMismatchError` (bytes 0..3) and `MetaSizeMismatchError`
(bytes 12..19), v3 `InvalidHeader` (bytes 0..7) and `InvalidMetadataSize`
(bytes 8..9); alterations of footer or tag bytes need not produce an
error. -/
theorem c9_magic_and_meta_size_amended :
    (∀ (r : V2.Replay) (m p b : Nat), p < 4 → (V2.Replay.write r).get? p ≠ some b →
      V2.Replay.read m (alter p b (V2.Replay.write r)) = .error .headerMismatch) ∧
    (∀ (r : V2.Replay) (p b : Nat), 12 ≤ p → p < 20 → b < 256 → r.metaSize < 2 ^ 64 →
      (V2.Replay.write r).get? p ≠ some b →
      V2.Replay.read r.metaSize (alter p b (V2.Replay.write r)) = .error .metaSizeMismatch) ∧
    (∀ (r : V3.Replay) (bytes : List Nat) (p b : Nat), V3.Replay.write r = .ok bytes →
      p < 8 → bytes.get? p ≠ some b →
      V3.Replay.read (alter p b bytes) = .error .invalidHeader) ∧
    (∀ (r : V3.Replay) (bytes : List Nat) (p b : Nat), V3.Replay.write r = .ok bytes →
      8 ≤ p → p < 10 → bytes.get? p ≠ some b →
      V3.Replay.read (alter p b bytes) = .error .invalidMetadataSize) :=
  ⟨v2_alter_header, v2_alter_meta_size, v3_alter_header, v3_alter_meta_size⟩

/-- C9 witness: concrete alterations of each protected field are rejected
with the corresponding error kind. -/
theorem c9_magic_and_meta_size_witness :
    V2.Replay.read 0 (alter 0 0 (V2.Replay.write skipReplay)) = .error .headerMismatch ∧
    V2.Replay.read 0 (alter 12 1 (V2.Replay.write skipReplay)) = .error .metaSizeMismatch ∧
    V3.Replay.read (alter 0 0 c3Bytes) = .error .invalidHeader ∧
    V3.Replay.read (alter 8 0 c3Bytes) = .error .invalidMetadataSize :=
  ⟨c9_magic_and_meta_size_amended.1 skipReplay 0 0 0 (by decide) (by decide),
   c9_magic_and_meta_size_amended.2.1 skipReplay 12 1 (by decide) (by decide) (by decide)
     (by decide) (by decide),
   c9_magic_and_meta_size_amended.2.2.1 c3Replay c3Bytes 0 0 (by decide) (by decide)
     (by decide),
   c9_magic_and_meta_size_amended.2.2.2 c3Replay c3Bytes 8 0 (by decide) (by decide)
     (by decide) (by decide)⟩

/-- C10: the v2 input decoder never returns `InvalidButton` (the 3-bit tag
covers exactly the eight valid values) nor `InvalidTPS`; its only error is
the I/O error for a short stream. -/
theorem c10_invalid_button_unreachable (s : List Nat) (cf bs : Nat) :
    V2.Input.read s cf bs ≠ .error .invalidButton ∧
    V2.Input.read s cf bs ≠ .error .invalidTPS := by
  unfold V2.Input.read
  cases h : readExact bs s with
  | none => simp
  | some pr =>
    obtain ⟨buf, rest⟩ := pr
    have hb : (leDecode (resize8 buf) &&& 0b11100) >>> 2 < 8 := by
      have h1 : leDecode (resize8 buf) &&& 0b11100 ≤ 0b11100 := Nat.and_le_right
      have h2 : (leDecode (resize8 buf) &&& 0b11100) >>> 2
          = (leDecode (resize8 buf) &&& 0b11100) / 4 := by
        simp [Nat.shiftRight_eq_div_pow]
      omega
    simp only []
    split_ifs <;> simp_all
    · cases hh : readExact 8 rest <;> simp [hh]
    · omega

end Slc
